import Mathlib

/-!
# Shared buffer (`sbuffer.c`): a verification development

The queue of `sbuffer.c` is a singly linked list of heap nodes reached through
`head` and `tail`, guarded by one mutex and one condition variable.  The
embedding keeps the pointer structure: a node lives at an address of an
explicit node memory, `NULL` is `none`, and every function is a state-passing
function on the fields of `struct sbuffer` together with that memory.  A call
runs under the mutex, so it is one atomic step; the only place where
`sbuffer_remove` gives the mutex up is `pthread_cond_wait`, which is an
explicit outcome of the model.
-/

namespace SBuffer

/-! ## Data model -/

/-- Modelled from the spec: `sbuffer.h` is not among the sources; these are the
three status codes `sbuffer.c` returns, kept as three distinct constants. -/
inductive Status where
  | SBUFFER_FAILURE
  | SBUFFER_SUCCESS
  | SBUFFER_NO_DATA
  deriving DecidableEq

/-- Modelled from the spec: `config.h` is not among the sources; a record is
`{ id: integer, value: floating-point, timestamp: integer }`.  The queue only
copies `value`, so it is kept as the bit pattern of the floating-point number. -/
structure sensor_data_t where
  id : Int
  value : Nat
  ts : Int
  deriving DecidableEq

/-- The `struct sbuffer_node`: `next` is a node address or `NULL` (`none`). -/
structure sbuffer_node_t where
  next : Option Nat
  data : sensor_data_t
  deriving DecidableEq

/-- The fields of `struct sbuffer` that carry state.  The mutex and the condition
variable are modelled by the atomicity of a call and by the `waiting` outcome. -/
structure sbuffer where
  head : Option Nat
  tail : Option Nat
  end_of_stream : Int
  deriving DecidableEq

/-- The node memory: which addresses hold a live `sbuffer_node_t`. -/
abbrev NodeMem := Nat → Option sbuffer_node_t

/-- The empty node memory. -/
def NodeMem.empty : NodeMem := fun _ => none

/-- The call `free(p)` on a live node. -/
def free (mem : NodeMem) (p : Nat) : NodeMem :=
  fun a => if a = p then none else mem a

/-- A write of a whole node through a pointer. -/
def store (mem : NodeMem) (p : Nat) (n : sbuffer_node_t) : NodeMem :=
  fun a => if a = p then some n else mem a

/-- The call `malloc(sizeof(sbuffer_node_t))`.  The allocator is free to fail or
to hand out any address that holds no live node; `choice` is the address it
tries (`none`: it fails), and an address that is live is never handed out. -/
def malloc (mem : NodeMem) (choice : Option Nat) : Option Nat :=
  match choice with
  | none => none
  | some a => if (mem a).isSome then none else some a

/-- What a call of `sbuffer_insert` wakes on `can_read`. -/
inductive Wake where
  | nobody
  | signal
  | broadcast
  deriving DecidableEq

/-- The result of `sbuffer_init`: the status, the value left in `*buffer`
(`none` is `NULL`) and whether the block it points to is still allocated. -/
structure init_outcome where
  status : Status
  handle : Option sbuffer
  live : Bool
  deriving DecidableEq

/-- The outcome of `sbuffer_remove`. -/
inductive remove_outcome where
  /-- the call returned: status, the queue fields, the node memory, `*data` -/
  | returned (status : Status) (buffer : Option sbuffer) (mem : NodeMem)
      (data : sensor_data_t)
  /-- the call is suspended in `pthread_cond_wait` -/
  | waiting
  /-- the call dereferenced an address that holds no live node -/
  | undefined

/-- The outcome of `sbuffer_insert`. -/
inductive insert_outcome where
  /-- the call returned: status, the queue fields, the node memory, the wake-up -/
  | returned (status : Status) (buffer : Option sbuffer) (mem : NodeMem)
      (wake : Wake)
  /-- the call dereferenced an address that holds no live node -/
  | undefined

/-! ## The functions of `sbuffer.c` -/

/-- The function `sbuffer_init`: the three arguments say whether `malloc`,
`pthread_mutex_init` and `pthread_cond_init` succeed. -/
def sbuffer_init (malloc_ok mutex_ok cond_ok : Bool) : init_outcome :=
  if !malloc_ok then ⟨.SBUFFER_FAILURE, none, false⟩
  else
    let b : sbuffer := ⟨none, none, 0⟩
    if !mutex_ok then ⟨.SBUFFER_FAILURE, some b, false⟩
    else if !cond_ok then ⟨.SBUFFER_FAILURE, some b, false⟩
    else ⟨.SBUFFER_SUCCESS, some b, true⟩

/-- The body of `sbuffer_remove` from the `while` loop on, run with the mutex
held.  `wakes` lists the queue states the call finds each time
`pthread_cond_wait` returns; when the call reaches the wait and `wakes` is
used up, it stays suspended. -/
def sbuffer_remove_locked (data : sensor_data_t) :
    List (sbuffer × NodeMem) → sbuffer → NodeMem → remove_outcome
  | wakes, b, mem =>
    match b.head with
    | none =>
      if b.end_of_stream ≠ 0 then
        .returned .SBUFFER_NO_DATA (some b) mem data
      else
        match wakes with
        | [] => .waiting
        | (b1, mem1) :: rest => sbuffer_remove_locked data rest b1 mem1
    | some h =>
      match mem h with
      | none => .undefined
      | some node =>
        let b1 : sbuffer :=
          if b.head = b.tail then ⟨none, none, b.end_of_stream⟩
          else ⟨node.next, b.tail, b.end_of_stream⟩
        .returned .SBUFFER_SUCCESS (some b1) (free mem h) node.data

/-- The function `sbuffer_remove`: `buffer` is the queue the pointer refers to
(`none`: the pointer is `NULL`), `data` the prior content of the output record. -/
def sbuffer_remove (buffer : Option sbuffer) (mem : NodeMem) (data : sensor_data_t)
    (wakes : List (sbuffer × NodeMem)) : remove_outcome :=
  match buffer with
  | none => .returned .SBUFFER_FAILURE none mem data
  | some b => sbuffer_remove_locked data wakes b mem

/-- The function `sbuffer_insert`: `choice` is the allocator's choice for the one
`malloc` call. -/
def sbuffer_insert (buffer : Option sbuffer) (mem : NodeMem) (data : sensor_data_t)
    (choice : Option Nat) : insert_outcome :=
  match buffer with
  | none => .returned .SBUFFER_FAILURE none mem .nobody
  | some b =>
    if data.id = 0 then
      .returned .SBUFFER_SUCCESS (some ⟨b.head, b.tail, 1⟩) mem .broadcast
    else
      match malloc mem choice with
      | none => .returned .SBUFFER_FAILURE (some b) mem .nobody
      | some dummy =>
        let mem1 := store mem dummy ⟨none, data⟩
        match b.tail with
        | none =>
          .returned .SBUFFER_SUCCESS (some ⟨some dummy, some dummy, b.end_of_stream⟩)
            mem1 .signal
        | some t =>
          match mem1 t with
          | none => .undefined
          | some tn =>
            let mem2 := store mem1 t ⟨some dummy, tn.data⟩
            match mem2 t with
            | none => .undefined
            | some tn2 =>
              .returned .SBUFFER_SUCCESS (some ⟨b.head, tn2.next, b.end_of_stream⟩)
                mem2 .signal

/-! ## The queued records -/

/-- The nodes `cells` (address and record) are exactly the list that starts at
pointer `p` and ends with a `NULL` next pointer. -/
def is_chain (mem : NodeMem) : Option Nat → List (Nat × sensor_data_t) → Prop
  | p, [] => p = none
  | p, c :: rest =>
    p = some c.1 ∧
      match mem c.1 with
      | none => False
      | some n => n.data = c.2 ∧ is_chain mem n.next rest

instance is_chain_decidable (mem : NodeMem) :
    (p : Option Nat) → (cells : List (Nat × sensor_data_t)) →
      Decidable (is_chain mem p cells)
  | p, [] => by unfold is_chain; exact inferInstance
  | p, c :: rest => by
    unfold is_chain
    cases h : mem c.1 with
    | none => exact inferInstance
    | some n =>
      have := is_chain_decidable mem n.next rest
      exact inferInstance

/-- The queue `b` holds exactly the nodes `cells`, from head to tail: they form
the chain from `head`, `tail` is the last of them (`NULL` when there is none),
and no address occurs twice. -/
def queue_holds (b : sbuffer) (mem : NodeMem) (cells : List (Nat × sensor_data_t)) :
    Prop :=
  is_chain mem b.head cells ∧ b.tail = (cells.getLast?).map Prod.fst ∧
    (cells.map Prod.fst).Nodup

instance queue_holds_decidable (b : sbuffer) (mem : NodeMem)
    (cells : List (Nat × sensor_data_t)) : Decidable (queue_holds b mem cells) := by
  unfold queue_holds
  exact inferInstance

/-- The records of the nodes `cells`, from head to tail. -/
def records (cells : List (Nat × sensor_data_t)) : List sensor_data_t :=
  cells.map Prod.snd

/-! ## Calls as atomic steps -/

/-- One call on the queue: an insert with the allocator's choice, or a remove by
a consumer with the prior content of its output record. -/
inductive Call where
  | insert (data : sensor_data_t) (choice : Option Nat)
  | remove (consumer : Nat) (out : sensor_data_t)
  deriving DecidableEq

/-- What a call was seen to do. -/
inductive Event where
  | insert_ret (data : sensor_data_t) (status : Status)
  | remove_ret (consumer : Nat) (status : Status) (data : sensor_data_t)
  | remove_wait (consumer : Nat)
  deriving DecidableEq

/-- An initialised queue together with the node memory. -/
structure Sys where
  buffer : sbuffer
  mem : NodeMem

/-- One call, taken as one atomic step on an initialised queue; `none` when the
call runs into undefined behaviour.  A remove that reaches the wait leaves the
queue as it is. -/
def step (s : Sys) : Call → Option (Sys × Event)
  | .insert data choice =>
    match sbuffer_insert (some s.buffer) s.mem data choice with
    | .returned status (some b) mem _ => some (⟨b, mem⟩, .insert_ret data status)
    | _ => none
  | .remove consumer out =>
    match sbuffer_remove (some s.buffer) s.mem out [] with
    | .returned status (some b) mem data =>
      some (⟨b, mem⟩, .remove_ret consumer status data)
    | .waiting => some (s, .remove_wait consumer)
    | _ => none

/-- A finite sequence of calls, with the events in the order of the calls. -/
def run (s : Sys) : List Call → Option (Sys × List Event)
  | [] => some (s, [])
  | c :: cs =>
    match step s c with
    | none => none
    | some (s1, e) =>
      match run s1 cs with
      | none => none
      | some (s2, es) => some (s2, e :: es)

/-- The queue a successful `sbuffer_init` leaves, over a node memory `mem`. -/
def fresh (mem : NodeMem) : Sys := ⟨⟨none, none, 0⟩, mem⟩

/-- The non-sentinel records whose insert returned `SBUFFER_SUCCESS`, in order. -/
def inserted : List Event → List sensor_data_t
  | [] => []
  | .insert_ret d .SBUFFER_SUCCESS :: es =>
    if d.id = 0 then inserted es else d :: inserted es
  | _ :: es => inserted es

/-- The records that remove returned with `SBUFFER_SUCCESS`, in order. -/
def delivered : List Event → List sensor_data_t
  | [] => []
  | .remove_ret _ .SBUFFER_SUCCESS d :: es => d :: delivered es
  | _ :: es => delivered es

/-- Records of the scenarios. -/
def rec1 : sensor_data_t := ⟨1, 0x4024000000000000, 100⟩

/-- Second scenario record. -/
def rec2 : sensor_data_t := ⟨2, 0x4034000000000000, 200⟩

/-- A sentinel record. -/
def sentinel : sensor_data_t := ⟨0, 0, 0⟩

/-- A call is a sentinel insert: an insert of a record with id 0. -/
def is_sentinel_insert : Call → Prop
  | .insert d _ => d.id = 0
  | .remove _ _ => False

/-- The insert calls for a list of records, each with the allocator's choice. -/
def insert_calls (ins : List (sensor_data_t × Option Nat)) : List Call :=
  ins.map (fun x => Call.insert x.1 x.2)

/-- The remove calls of a list of consumers, each with the prior content of its
output record. -/
def remove_calls (rs : List (Nat × sensor_data_t)) : List Call :=
  rs.map (fun r => Call.remove r.1 r.2)

/-- The events of inserts that all return `SBUFFER_SUCCESS`. -/
def success_events (recs : List sensor_data_t) : List Event :=
  recs.map (fun d => Event.insert_ret d .SBUFFER_SUCCESS)

/-- The events of one consumer that is handed `recs` in order and then
`SBUFFER_NO_DATA`, without ever waiting. -/
def drain_events (who : Nat) (out : sensor_data_t) (recs : List sensor_data_t) :
    List Event :=
  recs.map (fun d => Event.remove_ret who .SBUFFER_SUCCESS d)
    ++ [Event.remove_ret who .SBUFFER_NO_DATA out]

/-- Insert every record of `ins` in order, then the sentinel `snt`, then call
remove once more than there are records, from the one consumer `who`. -/
def fill_and_drain (ins : List (sensor_data_t × Option Nat)) (snt : sensor_data_t)
    (c0 : Option Nat) (who : Nat) (out : sensor_data_t) : List Call :=
  insert_calls ins ++ [Call.insert snt c0]
    ++ List.replicate (ins.length + 1) (Call.remove who out)

/-- A queue of two nodes: `rec1` at address 7, then `rec2` at address 3. -/
def mem_two : NodeMem :=
  store (store NodeMem.empty 3 ⟨none, rec2⟩) 7 ⟨some 3, rec1⟩

/-- A queue of one node: `rec1` at address 7. -/
def mem_one : NodeMem := store NodeMem.empty 7 ⟨none, rec1⟩

/-! ## `sbuffer_free`, the threads of `main.c`, and the waiting consumers -/

/-- The outcome of the node loop of `sbuffer_free`. -/
inductive free_loop_outcome where
  /-- the loop ended with `head == NULL`, leaving this node memory -/
  | done (mem : NodeMem)
  /-- the loop dereferenced an address that holds no live node -/
  | undefined
  /-- the model ran out of fuel before the loop ended -/
  | out_of_fuel

/-- The outcome of `sbuffer_free`: the status, what the handle pointer refers to
afterwards (`none`: the pointer itself is `NULL`; `some none`: the handle is
`NULL`), and the node memory. -/
inductive free_outcome where
  | returned (status : Status) (buffer : Option (Option sbuffer)) (mem : NodeMem)
  | undefined
  | out_of_fuel

/-- The loop `while ((*buffer)->head)` of `sbuffer_free`, from the pointer `head`,
with at most `fuel` turns. -/
def free_loop : Nat → Option Nat → NodeMem → free_loop_outcome
  | _, none, mem => .done mem
  | 0, some _, _ => .out_of_fuel
  | fuel + 1, some h, mem =>
    match mem h with
    | none => .undefined
    | some dummy => free_loop fuel dummy.next (free mem h)

/-- The function `sbuffer_free`: `buffer` is what the argument points to (`none`:
the argument is `NULL`; `some none`: the handle it points to is `NULL`). -/
def sbuffer_free (fuel : Nat) (buffer : Option (Option sbuffer)) (mem : NodeMem) :
    free_outcome :=
  match buffer with
  | none => .returned .SBUFFER_FAILURE none mem
  | some none => .returned .SBUFFER_FAILURE (some none) mem
  | some (some b) =>
    match free_loop fuel b.head mem with
    | .done mem1 => .returned .SBUFFER_SUCCESS (some none) mem1
    | .undefined => .undefined
    | .out_of_fuel => .out_of_fuel

/-- What the source holds behind its last whole record, as the failing turn of
the read loop leaves it in the local `data`.  The source may end between two
fields or inside a field; a field that is cut short is partly overwritten by
its `fread`, and the argument is what the field then holds.
`nothing`: no byte is left.  `id`: the source ends in or right behind the id.
`id_value`: the id is whole and the source ends in or right behind the value.
`id_value_ts`: id and value are whole and the source ends inside the
timestamp. -/
inductive source_rest where
  | nothing
  | id (id : Int)
  | id_value (id : Int) (value : Nat)
  | id_value_ts (id : Int) (value : Nat) (ts : Int)
  deriving DecidableEq

/-- The read loop of `writer_thread` over the whole records `recs` and the rest
of the source: the records it passes to `sbuffer_insert`, in order, and the
content of the local `data` when the loop ends. -/
def writer_loop (data : sensor_data_t) :
    List sensor_data_t → source_rest → List sensor_data_t × sensor_data_t
  | [], .nothing => ([], data)
  | [], .id i => ([], ⟨i, data.value, data.ts⟩)
  | [], .id_value i v => ([], ⟨i, v, data.ts⟩)
  | [], .id_value_ts i v t => ([], ⟨i, v, t⟩)
  | r :: rs, rest => ((r :: (writer_loop r rs rest).1), (writer_loop r rs rest).2)

/-- The function `writer_thread` of `main.c`: `fp` is the opened source (`none`:
`fopen` fails), `data` the initial content of the local record.  The result is
the list of the records it passes to `sbuffer_insert`, in call order. -/
def writer_thread (fp : Option (List sensor_data_t × source_rest))
    (data : sensor_data_t) : List sensor_data_t :=
  match fp with
  | none => []
  | some (recs, rest) =>
    (writer_loop data recs rest).1
      ++ [⟨0, (writer_loop data recs rest).2.value, (writer_loop data recs rest).2.ts⟩]

/-- The function `reader_thread` of `main.c`, given what its successive
`sbuffer_remove` calls return (the status and the content of `data` after the
call): the lines it writes to the sink, each the three fields it prints. -/
def reader_thread : List (Status × sensor_data_t) → List (Int × Nat × Int)
  | [] => []
  | (result, data) :: rest =>
    if result = .SBUFFER_NO_DATA then []
    else if result = .SBUFFER_SUCCESS then
      (data.id, data.value, data.ts) :: reader_thread rest
    else reader_thread rest

/-- What the `sbuffer_remove` calls of consumer `who` returned, in order. -/
def results_of (who : Nat) : List Event → List (Status × sensor_data_t)
  | [] => []
  | .remove_ret c status d :: es =>
    if c = who then (status, d) :: results_of who es else results_of who es
  | _ :: es => results_of who es

/-- The consumers of `woken`, each suspended in an `sbuffer_remove` call that went
to wait on the queue state `b0`, `mem0`, get the mutex back one after the other
and go on with their call on the state they find. -/
def resume (b0 : sbuffer) (mem0 : NodeMem) (s : Sys) :
    List (Nat × sensor_data_t) → Option (Sys × List Event)
  | [] => some (s, [])
  | c :: rest =>
    match sbuffer_remove (some b0) mem0 c.2 [(s.buffer, s.mem)] with
    | .returned status (some b) mem data =>
      (resume b0 mem0 ⟨b, mem⟩ rest).map
        (fun r => (r.1, Event.remove_ret c.1 status data :: r.2))
    | .waiting =>
      (resume b0 mem0 s rest).map (fun r => (r.1, Event.remove_wait c.1 :: r.2))
    | _ => none

/-- The consumers a wake-up on `can_read` wakes among the waiting ones, in the
order in which they get the mutex back: `pthread_cond_broadcast` wakes all of
them, `pthread_cond_signal` at least one of them. -/
def woken_by (w : Wake) (waiting woken : List (Nat × sensor_data_t)) : Prop :=
  match w with
  | .nobody => woken = []
  | .signal => woken ≠ [] ∧ woken ⊆ waiting
  | .broadcast => woken.Perm waiting

/-- The node memory after the nodes at `addrs` are freed. -/
def free_all (mem : NodeMem) (addrs : List Nat) : NodeMem :=
  fun a => if a ∈ addrs then none else mem a

/-! ## Memory and chain lemmas -/

theorem is_chain_nil (mem : NodeMem) (p : Option Nat) :
    is_chain mem p [] ↔ p = none := by
  simp [is_chain]

theorem is_chain_cons (mem : NodeMem) (p : Option Nat) (c : Nat × sensor_data_t)
    (rest : List (Nat × sensor_data_t)) :
    is_chain mem p (c :: rest) ↔
      p = some c.1 ∧ ∃ n, mem c.1 = some n ∧ n.data = c.2 ∧ is_chain mem n.next rest := by
  cases hm : mem c.1 <;> simp [is_chain, hm]

/-- A chain only reads the memory at the addresses of its own nodes. -/
theorem is_chain_congr (mem mem1 : NodeMem) :
    ∀ (cells : List (Nat × sensor_data_t)) (p : Option Nat),
      (∀ x ∈ cells.map Prod.fst, mem1 x = mem x) →
      is_chain mem p cells → is_chain mem1 p cells := by
  intro cells
  induction cells with
  | nil => intro p _ h; simpa [is_chain] using h
  | cons c rest ih =>
    intro p hx h
    rw [is_chain_cons] at h ⊢
    obtain ⟨hp, n, hn, hd, hr⟩ := h
    refine ⟨hp, n, ?_, hd, ih n.next (fun x hxr => hx x ?_) hr⟩
    · rw [hx c.1 (by simp), hn]
    · simp only [List.map_cons, List.mem_cons]; exact Or.inr hxr

/-- Every node of a chain is live. -/
theorem is_chain_live (mem : NodeMem) :
    ∀ (cells : List (Nat × sensor_data_t)) (p : Option Nat),
      is_chain mem p cells → ∀ x ∈ cells.map Prod.fst, mem x ≠ none := by
  intro cells
  induction cells with
  | nil => intro p _ x hx; simp at hx
  | cons c rest ih =>
    intro p h x hx
    rw [is_chain_cons] at h
    obtain ⟨_, n, hn, _, hr⟩ := h
    simp only [List.map_cons, List.mem_cons] at hx
    rcases hx with rfl | hx
    · simp [hn]
    · exact ih n.next hr x hx

theorem malloc_eq_some (mem : NodeMem) (choice : Option Nat) (a : Nat) :
    malloc mem choice = some a ↔ choice = some a ∧ mem a = none := by
  cases choice with
  | none => simp [malloc]
  | some c =>
    cases hc : mem c with
    | none =>
      simp only [malloc, hc, Option.isSome_none, Bool.false_eq_true, if_false,
        Option.some.injEq]
      constructor
      · intro h; subst h; exact ⟨rfl, hc⟩
      · intro h; exact h.1
    | some n =>
      simp only [malloc, hc, Option.isSome_some, if_true, Option.some.injEq]
      constructor
      · intro h; cases h
      · rintro ⟨rfl, h⟩; rw [hc] at h; cases h

/-- Linking a new last node behind the last node of a chain. -/
theorem is_chain_append (mem : NodeMem) (dummy : Nat) (d : sensor_data_t) (t : Nat)
    (dt : sensor_data_t) :
    ∀ (cells : List (Nat × sensor_data_t)) (p : Option Nat),
      is_chain mem p (cells ++ [(t, dt)]) →
      ((cells ++ [(t, dt)]).map Prod.fst).Nodup →
      dummy ∉ (cells ++ [(t, dt)]).map Prod.fst →
      is_chain (store (store mem dummy ⟨none, d⟩) t ⟨some dummy, dt⟩) p
        (cells ++ [(t, dt)] ++ [(dummy, d)]) := by
  intro cells
  induction cells with
  | nil =>
    intro p h _ hfresh
    simp only [List.nil_append, List.map_cons, List.map_nil, List.mem_singleton] at hfresh
    rw [List.nil_append, is_chain_cons] at h
    obtain ⟨hp, n, _, _, _⟩ := h
    simp only [List.nil_append, List.singleton_append]
    rw [is_chain_cons]
    refine ⟨hp, ⟨some dummy, dt⟩, by simp [store], rfl, ?_⟩
    rw [is_chain_cons]
    refine ⟨rfl, ⟨none, d⟩, by simp [store, hfresh], rfl, ?_⟩
    simp [is_chain]
  | cons c rest ih =>
    intro p h hnd hfresh
    simp only [List.cons_append, List.map_cons, List.nodup_cons, List.mem_cons,
      not_or] at hnd hfresh
    rw [List.cons_append, is_chain_cons] at h
    obtain ⟨hp, n, hn, hdat, hr⟩ := h
    simp only [List.cons_append]
    rw [is_chain_cons]
    have hct : c.1 ≠ t := by
      intro hEQ
      apply hnd.1
      rw [hEQ]
      simp
    have hcd : c.1 ≠ dummy := fun hEQ => hfresh.1 hEQ.symm
    refine ⟨hp, n, by simp [store, hct, hcd, hn], hdat, ?_⟩
    have := ih n.next hr hnd.2 hfresh.2
    simpa using this

/-! ## What one call does to a well-formed queue -/

theorem queue_holds_nil_iff (b : sbuffer) (mem : NodeMem) :
    queue_holds b mem [] ↔ b.head = none ∧ b.tail = none := by
  simp [queue_holds, is_chain]

theorem queue_holds_head (b : sbuffer) (mem : NodeMem)
    (cells : List (Nat × sensor_data_t)) (h : queue_holds b mem cells) :
    b.head = none ↔ cells = [] := by
  cases cells with
  | nil => simpa using ((queue_holds_nil_iff b mem).1 h).1
  | cons c rest =>
    have := ((is_chain_cons mem b.head c rest).1 h.1).1
    simp [this]

theorem queue_holds_tail (b : sbuffer) (mem : NodeMem)
    (cells : List (Nat × sensor_data_t)) (h : queue_holds b mem cells) :
    b.tail = none ↔ cells = [] := by
  rw [h.2.1]
  cases hl : cells.getLast? with
  | none => simpa using List.getLast?_eq_none_iff.1 hl
  | some x =>
    simp only [Option.map_some', reduceCtorEq, false_iff]
    intro hnil
    rw [hnil] at hl
    simp at hl

/-- Removing from a queue that holds at least one node. -/
theorem remove_cons (b : sbuffer) (mem : NodeMem) (a : Nat) (d out : sensor_data_t)
    (rest : List (Nat × sensor_data_t)) (wakes : List (sbuffer × NodeMem))
    (h : queue_holds b mem ((a, d) :: rest)) :
    ∃ b1, sbuffer_remove (some b) mem out wakes =
        .returned .SBUFFER_SUCCESS (some b1) (free mem a) d ∧
      queue_holds b1 (free mem a) rest ∧ b1.end_of_stream = b.end_of_stream := by
  obtain ⟨hc, ht, hnd⟩ := h
  rw [is_chain_cons] at hc
  obtain ⟨hp, n, hn, hdat, hr⟩ := hc
  simp only at hp hn hdat
  simp only [List.map_cons, List.nodup_cons] at hnd
  have hfree : is_chain (free mem a) n.next rest := by
    refine is_chain_congr mem (free mem a) rest n.next (fun x hx => ?_) hr
    have : x ≠ a := fun hEQ => hnd.1 (hEQ ▸ hx)
    simp [free, this]
  cases rest with
  | nil =>
    have htl : b.tail = some a := by simpa using ht
    have hnx : n.next = none := by simpa [is_chain] using hr
    refine ⟨⟨none, none, b.end_of_stream⟩, ?_, ?_, rfl⟩
    · rcases wakes with _ | ⟨⟨w1, w2⟩, ws⟩ <;>
        simp [sbuffer_remove, sbuffer_remove_locked, hp, hn, htl, hdat]
    · simp [queue_holds, is_chain]
  | cons c r =>
    have htl : b.tail = ((c :: r).getLast?).map Prod.fst := by
      rw [ht, List.getLast?_cons_cons]
    have hne : b.head ≠ b.tail := by
      rw [hp, htl]
      intro hEQ
      apply hnd.1
      have hmem : ((c :: r).getLast?).map Prod.fst = some a := hEQ.symm
      cases hl : (c :: r).getLast? with
      | none => rw [hl] at hmem; simp at hmem
      | some x =>
        rw [hl] at hmem
        simp only [Option.map_some', Option.some.injEq] at hmem
        have := List.mem_of_getLast?_eq_some hl
        exact List.mem_map.2 ⟨x, this, hmem⟩
    refine ⟨⟨n.next, b.tail, b.end_of_stream⟩, ?_, ?_, rfl⟩
    · have hne2 : ¬ (some a = b.tail) := by rw [← hp]; exact hne
      rcases wakes with _ | ⟨⟨w1, w2⟩, ws⟩ <;>
        simp [sbuffer_remove, sbuffer_remove_locked, hp, hn, hne2, hdat]
    · exact ⟨hfree, htl, hnd.2⟩

/-- Removing from a queue that holds no node: the closed flag decides. -/
theorem remove_nil (b : sbuffer) (mem : NodeMem) (out : sensor_data_t)
    (h : b.head = none) :
    sbuffer_remove (some b) mem out [] =
      if b.end_of_stream ≠ 0 then .returned .SBUFFER_NO_DATA (some b) mem out
      else .waiting := by
  simp [sbuffer_remove, sbuffer_remove_locked, h]

/-- Inserting a payload record when the allocation succeeds. -/
theorem insert_payload (b : sbuffer) (mem : NodeMem) (data : sensor_data_t)
    (choice : Option Nat) (a : Nat) (cells : List (Nat × sensor_data_t))
    (h : queue_holds b mem cells) (hid : data.id ≠ 0)
    (hm : malloc mem choice = some a) :
    ∃ b1 mem1, sbuffer_insert (some b) mem data choice =
        .returned .SBUFFER_SUCCESS (some b1) mem1 .signal ∧
      queue_holds b1 mem1 (cells ++ [(a, data)]) ∧
      b1.end_of_stream = b.end_of_stream := by
  have hfresh := ((malloc_eq_some mem choice a).1 hm).2
  have hnotin : a ∉ cells.map Prod.fst := fun hx =>
    is_chain_live mem cells b.head h.1 a hx hfresh
  rcases List.eq_nil_or_concat cells with hnil | ⟨front, ⟨t, dt⟩, hcells⟩
  · subst hnil
    have hb := (queue_holds_nil_iff b mem).1 h
    refine ⟨⟨some a, some a, b.end_of_stream⟩, store mem a ⟨none, data⟩, ?_, ?_, rfl⟩
    · simp [sbuffer_insert, hid, hm, hb.2]
    · simp [queue_holds, is_chain, store]
  · rw [List.concat_eq_append] at hcells
    subst hcells
    obtain ⟨hc, ht, hnd⟩ := h
    have htl : b.tail = some t := by simpa using ht
    have hta : t ≠ a := by
      intro hEQ
      apply hnotin
      rw [← hEQ]
      simp
    have hlive : mem t ≠ none :=
      is_chain_live mem _ b.head hc t (by simp)
    obtain ⟨tn, htn⟩ := Option.ne_none_iff_exists'.1 hlive
    have hdt : tn.data = dt := by
      have key : ∀ (fr : List (Nat × sensor_data_t)) (p : Option Nat),
          is_chain mem p (fr ++ [(t, dt)]) → ((fr ++ [(t, dt)]).map Prod.fst).Nodup →
          tn.data = dt := by
        intro fr
        induction fr with
        | nil =>
          intro p hch _
          rw [List.nil_append, is_chain_cons] at hch
          obtain ⟨_, n, hn, hd, _⟩ := hch
          simp only at hn hd
          rw [htn] at hn
          cases hn
          exact hd
        | cons c fr ih =>
          intro p hch hnd1
          rw [List.cons_append, is_chain_cons] at hch
          obtain ⟨_, n, _, _, hr⟩ := hch
          simp only [List.cons_append, List.map_cons, List.nodup_cons] at hnd1
          exact ih n.next hr hnd1.2
      exact key front b.head hc hnd
    refine ⟨⟨b.head, some a, b.end_of_stream⟩,
      store (store mem a ⟨none, data⟩) t ⟨some a, dt⟩, ?_, ?_, rfl⟩
    · simp [sbuffer_insert, hid, hm, htl, store, hta, htn, hdt]
    · refine ⟨is_chain_append mem a data t dt front b.head hc hnd hnotin, ?_, ?_⟩
      · simp
      · rw [List.map_append, List.nodup_append]
        refine ⟨hnd, by simp, ?_⟩
        intro x hx hx2
        simp only [List.map_cons, List.map_nil, List.mem_singleton] at hx2
        subst hx2
        exact hnotin hx

/-- Inserting a payload record when the allocation fails. -/
theorem insert_alloc_fails (b : sbuffer) (mem : NodeMem) (data : sensor_data_t)
    (choice : Option Nat) (hid : data.id ≠ 0) (hm : malloc mem choice = none) :
    sbuffer_insert (some b) mem data choice =
      .returned .SBUFFER_FAILURE (some b) mem .nobody := by
  simp [sbuffer_insert, hid, hm]

/-- Inserting the sentinel. -/
theorem insert_sentinel (b : sbuffer) (mem : NodeMem) (data : sensor_data_t)
    (choice : Option Nat) (hid : data.id = 0) :
    sbuffer_insert (some b) mem data choice =
      .returned .SBUFFER_SUCCESS (some ⟨b.head, b.tail, 1⟩) mem .broadcast := by
  simp [sbuffer_insert, hid]

/-! ## One atomic step -/

theorem init_success (ok1 ok2 ok3 : Bool) (b0 : sbuffer)
    (hs : (sbuffer_init ok1 ok2 ok3).status = .SBUFFER_SUCCESS)
    (hh : (sbuffer_init ok1 ok2 ok3).handle = some b0) :
    b0 = ⟨none, none, 0⟩ := by
  cases ok1 <;> cases ok2 <;> cases ok3 <;> simp [sbuffer_init] at hs hh
  exact hh.symm

theorem queue_holds_eos (b : sbuffer) (mem : NodeMem)
    (cells : List (Nat × sensor_data_t)) (e : Int) (h : queue_holds b mem cells) :
    queue_holds ⟨b.head, b.tail, e⟩ mem cells := h

theorem step_insert_sentinel (s : Sys) (d : sensor_data_t) (ch : Option Nat)
    (hid : d.id = 0) :
    step s (.insert d ch) =
      some (⟨⟨s.buffer.head, s.buffer.tail, 1⟩, s.mem⟩, .insert_ret d .SBUFFER_SUCCESS) := by
  simp [step, insert_sentinel s.buffer s.mem d ch hid]

theorem step_insert_fail (s : Sys) (d : sensor_data_t) (ch : Option Nat)
    (hid : d.id ≠ 0) (hm : malloc s.mem ch = none) :
    step s (.insert d ch) = some (s, .insert_ret d .SBUFFER_FAILURE) := by
  simp [step, insert_alloc_fails s.buffer s.mem d ch hid hm]

theorem step_insert_ok (s : Sys) (d : sensor_data_t) (ch : Option Nat) (a : Nat)
    (cells : List (Nat × sensor_data_t)) (h : queue_holds s.buffer s.mem cells)
    (hid : d.id ≠ 0) (hm : malloc s.mem ch = some a) :
    ∃ s1, step s (.insert d ch) = some (s1, .insert_ret d .SBUFFER_SUCCESS) ∧
      queue_holds s1.buffer s1.mem (cells ++ [(a, d)]) ∧
      s1.buffer.end_of_stream = s.buffer.end_of_stream := by
  obtain ⟨b1, mem1, hins, hq, he⟩ := insert_payload s.buffer s.mem d ch a cells h hid hm
  exact ⟨⟨b1, mem1⟩, by simp [step, hins], hq, he⟩

theorem step_remove_cons (s : Sys) (who : Nat) (out : sensor_data_t) (a : Nat)
    (d : sensor_data_t) (rest : List (Nat × sensor_data_t))
    (h : queue_holds s.buffer s.mem ((a, d) :: rest)) :
    ∃ s1, step s (.remove who out) = some (s1, .remove_ret who .SBUFFER_SUCCESS d) ∧
      queue_holds s1.buffer s1.mem rest ∧
      s1.buffer.end_of_stream = s.buffer.end_of_stream := by
  obtain ⟨b1, hrem, hq, he⟩ := remove_cons s.buffer s.mem a d out rest [] h
  exact ⟨⟨b1, free s.mem a⟩, by simp [step, hrem], hq, he⟩

theorem step_remove_closed (s : Sys) (who : Nat) (out : sensor_data_t)
    (hh : s.buffer.head = none) (he : s.buffer.end_of_stream ≠ 0) :
    step s (.remove who out) = some (s, .remove_ret who .SBUFFER_NO_DATA out) := by
  simp [step, remove_nil s.buffer s.mem out hh, he]

theorem step_remove_open (s : Sys) (who : Nat) (out : sensor_data_t)
    (hh : s.buffer.head = none) (he : s.buffer.end_of_stream = 0) :
    step s (.remove who out) = some (s, .remove_wait who) := by
  simp [step, remove_nil s.buffer s.mem out hh, he]

/-- Every call on a well-formed queue returns or waits, leaves the queue well
formed, keeps the records in order, and touches the closed flag only when it is
a sentinel insert. -/
theorem step_spec (s : Sys) (c : Call) (cells : List (Nat × sensor_data_t))
    (h : queue_holds s.buffer s.mem cells) :
    ∃ s1 e cells1, step s c = some (s1, e) ∧
      queue_holds s1.buffer s1.mem cells1 ∧
      delivered [e] ++ records cells1 = records cells ++ inserted [e] ∧
      (is_sentinel_insert c → s1.buffer.end_of_stream = 1) ∧
      (¬ is_sentinel_insert c → s1.buffer.end_of_stream = s.buffer.end_of_stream) := by
  cases c with
  | insert d ch =>
    by_cases hid : d.id = 0
    · refine ⟨_, _, cells, step_insert_sentinel s d ch hid, h, ?_, fun _ => rfl,
        fun hn => absurd hid hn⟩
      simp [delivered, inserted, hid]
    · cases hm : malloc s.mem ch with
      | none =>
        refine ⟨_, _, cells, step_insert_fail s d ch hid hm, h, ?_,
          fun hs => absurd hs hid, fun _ => rfl⟩
        simp [delivered, inserted]
      | some a =>
        obtain ⟨s1, hst, hq, he⟩ := step_insert_ok s d ch a cells h hid hm
        refine ⟨s1, _, _, hst, hq, ?_, fun hs => absurd hs hid, fun _ => he⟩
        simp [delivered, inserted, hid, records]
  | remove who out =>
    cases cells with
    | nil =>
      have hh := ((queue_holds_nil_iff s.buffer s.mem).1 h).1
      by_cases he : s.buffer.end_of_stream = 0
      · refine ⟨_, _, [], step_remove_open s who out hh he, h, ?_,
          fun hs => hs.elim, fun _ => rfl⟩
        simp [delivered, inserted]
      · refine ⟨_, _, [], step_remove_closed s who out hh he, h, ?_,
          fun hs => hs.elim, fun _ => rfl⟩
        simp [delivered, inserted]
    | cons c rest =>
      obtain ⟨a, d⟩ := c
      obtain ⟨s1, hst, hq, he⟩ := step_remove_cons s who out a d rest h
      refine ⟨s1, _, rest, hst, hq, ?_, fun hs => hs.elim, fun _ => he⟩
      simp [delivered, inserted, records]

/-! ## Sequences of calls -/

theorem delivered_cons (e : Event) (es : List Event) :
    delivered (e :: es) = delivered [e] ++ delivered es := by
  cases e with
  | insert_ret d st => simp [delivered]
  | remove_ret who st d => cases st <;> simp [delivered]
  | remove_wait who => simp [delivered]

theorem inserted_cons (e : Event) (es : List Event) :
    inserted (e :: es) = inserted [e] ++ inserted es := by
  cases e with
  | insert_ret d st =>
    cases st <;> simp [inserted]
    by_cases hid : d.id = 0 <;> simp [hid]
  | remove_ret who st d => simp [inserted]
  | remove_wait who => simp [inserted]

theorem run_cons (s : Sys) (c : Call) (cs : List Call) (s1 : Sys) (e : Event)
    (h : step s c = some (s1, e)) :
    run s (c :: cs) = (run s1 cs).map (fun r => (r.1, e :: r.2)) := by
  simp only [run, h]
  cases run s1 cs <;> rfl

theorem run_append (cs1 cs2 : List Call) :
    ∀ (s s1 : Sys) (ev1 : List Event), run s cs1 = some (s1, ev1) →
      run s (cs1 ++ cs2) = (run s1 cs2).map (fun r => (r.1, ev1 ++ r.2)) := by
  induction cs1 with
  | nil =>
    intro s s1 ev1 h
    simp only [run, Option.some.injEq, Prod.mk.injEq] at h
    obtain ⟨rfl, rfl⟩ := h
    rw [List.nil_append]
    cases run s cs2 <;> simp
  | cons c cs ih =>
    intro s s1 ev1 h
    cases hst : step s c with
    | none => simp [run, hst] at h
    | some r =>
      obtain ⟨sa, e⟩ := r
      rw [run_cons s c cs sa e hst] at h
      rw [List.cons_append, run_cons s c (cs ++ cs2) sa e hst]
      cases hr : run sa cs with
      | none => simp [hr] at h
      | some r2 =>
        obtain ⟨sb, eb⟩ := r2
        simp only [hr, Option.map_some', Option.some.injEq, Prod.mk.injEq] at h
        obtain ⟨rfl, rfl⟩ := h
        rw [ih sa sb eb hr]
        cases run sb cs2 <;> simp

/-- Every finite sequence of calls on a well-formed queue runs through, and the
records delivered so far followed by the queued ones are the records that were
queued at the start followed by the ones inserted so far. -/
theorem run_spec (calls : List Call) :
    ∀ (s : Sys) (cells : List (Nat × sensor_data_t)),
      queue_holds s.buffer s.mem cells →
      ∃ s1 ev cells1, run s calls = some (s1, ev) ∧
        queue_holds s1.buffer s1.mem cells1 ∧
        delivered ev ++ records cells1 = records cells ++ inserted ev ∧
        (s.buffer.end_of_stream ≠ 0 → s1.buffer.end_of_stream ≠ 0) := by
  induction calls with
  | nil =>
    intro s cells h
    exact ⟨s, [], cells, rfl, h, by simp [delivered, inserted], fun x => x⟩
  | cons c cs ih =>
    intro s cells h
    obtain ⟨sa, e, cellsa, hst, hqa, hlog, hsent, hkeep⟩ := step_spec s c cells h
    obtain ⟨sb, ev, cellsb, hrun, hqb, hlogb, hclosed⟩ := ih sa cellsa hqa
    refine ⟨sb, e :: ev, cellsb, ?_, hqb, ?_, ?_⟩
    · rw [run_cons s c cs sa e hst, hrun]; rfl
    · rw [delivered_cons, inserted_cons, List.append_assoc, hlogb, ← List.append_assoc,
        hlog, List.append_assoc]
    · intro hne
      apply hclosed
      by_cases hs : is_sentinel_insert c
      · rw [hsent hs]; decide
      · rw [hkeep hs]; exact hne

theorem fresh_holds (mem : NodeMem) :
    queue_holds (fresh mem).buffer (fresh mem).mem [] := by
  simp [fresh, queue_holds, is_chain]

/-! ## The closed flag -/

theorem insert_eos (b b1 : sbuffer) (mem mem1 : NodeMem) (data : sensor_data_t)
    (ch : Option Nat) (st : Status) (w : Wake)
    (h : sbuffer_insert (some b) mem data ch = .returned st (some b1) mem1 w) :
    b1.end_of_stream = if data.id = 0 then 1 else b.end_of_stream := by
  by_cases hid : data.id = 0
  · rw [insert_sentinel b mem data ch hid] at h
    simp only [insert_outcome.returned.injEq, Option.some.injEq] at h
    rw [← h.2.1]; simp [hid]
  · simp only [hid, if_false]
    cases hm : malloc mem ch with
    | none =>
      rw [insert_alloc_fails b mem data ch hid hm] at h
      simp only [insert_outcome.returned.injEq, Option.some.injEq] at h
      rw [← h.2.1]
    | some a =>
      cases ht : b.tail with
      | none =>
        simp only [sbuffer_insert, hid, if_false, hm, ht,
          insert_outcome.returned.injEq, Option.some.injEq] at h
        rw [← h.2.1]
      | some t =>
        simp only [sbuffer_insert, hid, if_false, hm, ht] at h
        cases h1 : store mem a ⟨none, data⟩ t with
        | none => simp [h1] at h
        | some tn =>
          simp only [h1] at h
          simp only [store, if_true, insert_outcome.returned.injEq,
            Option.some.injEq] at h
          rw [← h.2.1]

theorem remove_wake (b w : sbuffer) (mem wmem : NodeMem) (out : sensor_data_t)
    (ws : List (sbuffer × NodeMem)) :
    sbuffer_remove (some b) mem out ((w, wmem) :: ws) =
      if b.head = none ∧ b.end_of_stream = 0 then sbuffer_remove (some w) wmem out ws
      else sbuffer_remove (some b) mem out [] := by
  cases hh : b.head with
  | none =>
    by_cases he : b.end_of_stream = 0
    · simp [sbuffer_remove, sbuffer_remove_locked, hh, he]
    · simp [sbuffer_remove, sbuffer_remove_locked, hh, he]
  | some a =>
    cases hm : mem a <;> simp [sbuffer_remove, sbuffer_remove_locked, hh, hm]

theorem remove_closed_empty (b : sbuffer) (mem : NodeMem) (out : sensor_data_t)
    (wakes : List (sbuffer × NodeMem)) (hh : b.head = none)
    (he : b.end_of_stream ≠ 0) :
    sbuffer_remove (some b) mem out wakes =
      .returned .SBUFFER_NO_DATA (some b) mem out := by
  rcases wakes with _ | ⟨⟨w1, w2⟩, ws⟩ <;>
    simp [sbuffer_remove, sbuffer_remove_locked, hh, he]

theorem remove_live (b : sbuffer) (mem : NodeMem) (out : sensor_data_t)
    (wakes : List (sbuffer × NodeMem)) (a : Nat) (n : sbuffer_node_t)
    (hh : b.head = some a) (hm : mem a = some n) :
    sbuffer_remove (some b) mem out wakes =
      .returned .SBUFFER_SUCCESS
        (some (if b.head = b.tail then ⟨none, none, b.end_of_stream⟩
          else ⟨n.next, b.tail, b.end_of_stream⟩)) (free mem a) n.data := by
  rcases wakes with _ | ⟨⟨w1, w2⟩, ws⟩ <;>
    simp [sbuffer_remove, sbuffer_remove_locked, hh, hm]

theorem remove_dead (b : sbuffer) (mem : NodeMem) (out : sensor_data_t)
    (wakes : List (sbuffer × NodeMem)) (a : Nat)
    (hh : b.head = some a) (hm : mem a = none) :
    sbuffer_remove (some b) mem out wakes = .undefined := by
  rcases wakes with _ | ⟨⟨w1, w2⟩, ws⟩ <;>
    simp [sbuffer_remove, sbuffer_remove_locked, hh, hm]

theorem remove_eos_head (b b1 : sbuffer) (mem mem1 : NodeMem) (out d : sensor_data_t)
    (wakes : List (sbuffer × NodeMem)) (st : Status) (a : Nat) (hh : b.head = some a)
    (h : sbuffer_remove (some b) mem out wakes = .returned st (some b1) mem1 d) :
    b1.end_of_stream = b.end_of_stream := by
  cases hm : mem a with
  | none => rw [remove_dead b mem out wakes a hh hm] at h; cases h
  | some n =>
    rw [remove_live b mem out wakes a n hh hm] at h
    simp only [remove_outcome.returned.injEq, Option.some.injEq] at h
    rw [← h.2.1]
    split <;> rfl

theorem remove_eos_frame (out : sensor_data_t) :
    ∀ (wakes : List (sbuffer × NodeMem)) (b b1 : sbuffer) (mem mem1 : NodeMem)
      (st : Status) (d : sensor_data_t),
      sbuffer_remove (some b) mem out wakes = .returned st (some b1) mem1 d →
      (¬ (b.head = none ∧ b.end_of_stream = 0) ∧ b1.end_of_stream = b.end_of_stream) ∨
        (b.head = none ∧ b.end_of_stream = 0 ∧
          ∃ w ∈ wakes, b1.end_of_stream = w.1.end_of_stream) := by
  intro wakes
  induction wakes with
  | nil =>
    intro b b1 mem mem1 st d h
    left
    cases hh : b.head with
    | none =>
      rw [remove_nil b mem out hh] at h
      by_cases he : b.end_of_stream = 0
      · simp [he] at h
      · simp only [ne_eq, he, not_false_eq_true, if_true,
          remove_outcome.returned.injEq, Option.some.injEq] at h
        refine ⟨fun hx => he hx.2, ?_⟩
        rw [← h.2.1]
    | some a =>
      exact ⟨by simp, remove_eos_head b b1 mem mem1 out d [] st a hh h⟩
  | cons w ws ih =>
    intro b b1 mem mem1 st d h
    obtain ⟨wb, wm⟩ := w
    cases hh : b.head with
    | none =>
      by_cases he : b.end_of_stream = 0
      · right
        refine ⟨rfl, he, ?_⟩
        rw [remove_wake b wb mem wm out ws, if_pos ⟨hh, he⟩] at h
        rcases ih wb b1 wm mem1 st d h with ⟨_, hx⟩ | ⟨_, _, w2, hw2, hx⟩
        · exact ⟨(wb, wm), by simp, hx⟩
        · exact ⟨w2, by simp [hw2], hx⟩
      · left
        rw [remove_closed_empty b mem out _ hh he] at h
        simp only [remove_outcome.returned.injEq, Option.some.injEq] at h
        refine ⟨fun hx => he hx.2, ?_⟩
        rw [← h.2.1]
    | some a =>
      exact Or.inl ⟨by simp, remove_eos_head b b1 mem mem1 out d _ st a hh h⟩

theorem remove_waiting_iff (b : sbuffer) (mem : NodeMem) (out : sensor_data_t) :
    sbuffer_remove (some b) mem out [] = .waiting ↔
      b.head = none ∧ b.end_of_stream = 0 := by
  cases hh : b.head with
  | none =>
    rw [remove_nil b mem out hh]
    by_cases he : b.end_of_stream = 0 <;> simp [he]
  | some a =>
    cases hm : mem a <;> simp [sbuffer_remove, sbuffer_remove_locked, hh, hm]

/-! ## Filling and draining -/

/-- Removes on an empty closed queue: every one returns `SBUFFER_NO_DATA` and the
queue stays as it is. -/
theorem run_removes_closed (s : Sys) (hh : s.buffer.head = none)
    (he : s.buffer.end_of_stream ≠ 0) :
    ∀ rs : List (Nat × sensor_data_t),
      run s (remove_calls rs) =
        some (s, rs.map (fun r => Event.remove_ret r.1 .SBUFFER_NO_DATA r.2)) := by
  intro rs
  induction rs with
  | nil => rfl
  | cons r rs ih =>
    have hst := step_remove_closed s r.1 r.2 hh he
    simp only [remove_calls, List.map_cons] at ih ⊢
    rw [run_cons s _ _ s _ hst, ih]
    rfl

/-- When every payload insert of a sequence returns `SBUFFER_SUCCESS`, the
records are appended to the queue in order. -/
theorem run_inserts_success :
    ∀ (ins : List (sensor_data_t × Option Nat)) (s s1 : Sys)
      (cells : List (Nat × sensor_data_t)),
      queue_holds s.buffer s.mem cells →
      (∀ x ∈ ins, x.1.id ≠ 0) →
      run s (insert_calls ins) =
        some (s1, (ins.map Prod.fst).map (fun d => Event.insert_ret d .SBUFFER_SUCCESS)) →
      ∃ cells1, queue_holds s1.buffer s1.mem (cells ++ cells1) ∧
        records cells1 = ins.map Prod.fst ∧
        s1.buffer.end_of_stream = s.buffer.end_of_stream := by
  intro ins
  induction ins with
  | nil =>
    intro s s1 cells h _ hrun
    simp only [insert_calls, List.map_nil, run, Option.some.injEq, Prod.mk.injEq,
      and_true] at hrun
    subst hrun
    exact ⟨[], by simpa using h, rfl, rfl⟩
  | cons x ins ih =>
    intro s s1 cells h hid hrun
    obtain ⟨d, ch⟩ := x
    have hd : d.id ≠ 0 := hid (d, ch) (by simp)
    simp only [insert_calls, List.map_cons] at hrun ih
    cases hm : malloc s.mem ch with
    | none =>
      rw [run_cons s _ _ s _ (step_insert_fail s d ch hd hm)] at hrun
      cases hr : run s (List.map (fun x => Call.insert x.1 x.2) ins) with
      | none => simp [hr] at hrun
      | some r => simp [hr] at hrun
    | some a =>
      obtain ⟨sa, hst, hqa, hea⟩ := step_insert_ok s d ch a cells h hd hm
      rw [run_cons s _ _ sa _ hst] at hrun
      cases hr : run sa (List.map (fun x => Call.insert x.1 x.2) ins) with
      | none => simp [hr] at hrun
      | some r =>
        obtain ⟨sb, evb⟩ := r
        simp only [hr, Option.map_some', Option.some.injEq, Prod.mk.injEq,
          List.cons.injEq, true_and] at hrun
        obtain ⟨rfl, rfl⟩ := hrun
        obtain ⟨cells1, hq1, hrec, he1⟩ :=
          ih sa sb (cells ++ [(a, d)]) hqa (fun y hy => hid y (by simp [hy])) hr
        refine ⟨(a, d) :: cells1, by simpa using hq1, by simp [records] at hrec ⊢; exact hrec,
          he1.trans hea⟩

/-- Draining a closed queue: the queued records come out in order, and then
`SBUFFER_NO_DATA`; no call waits. -/
theorem run_drain (who : Nat) (out : sensor_data_t) :
    ∀ (cells : List (Nat × sensor_data_t)) (s : Sys),
      queue_holds s.buffer s.mem cells → s.buffer.end_of_stream ≠ 0 →
      ∃ s2, run s (List.replicate (cells.length + 1) (Call.remove who out)) =
        some (s2, (records cells).map (fun d => Event.remove_ret who .SBUFFER_SUCCESS d)
          ++ [Event.remove_ret who .SBUFFER_NO_DATA out]) := by
  intro cells
  induction cells with
  | nil =>
    intro s h he
    have hh := ((queue_holds_nil_iff s.buffer s.mem).1 h).1
    refine ⟨s, ?_⟩
    have := run_removes_closed s hh he [(who, out)]
    simpa [remove_calls, records] using this
  | cons c rest ih =>
    intro s h he
    obtain ⟨a, d⟩ := c
    obtain ⟨s1, hst, hq, he1⟩ := step_remove_cons s who out a d rest h
    obtain ⟨s2, hrun⟩ := ih s1 hq (by rw [he1]; exact he)
    refine ⟨s2, ?_⟩
    rw [List.length_cons, List.replicate_succ, run_cons s _ _ s1 _ hst, hrun]
    simp [records]

/-- After a sentinel insert, whatever was called before and whatever is called
afterwards, the queue is well formed and closed. -/
theorem run_after_sentinel (s0 : Sys) (cells0 : List (Nat × sensor_data_t))
    (calls1 calls2 : List Call) (snt : sensor_data_t) (ch : Option Nat)
    (h0 : queue_holds s0.buffer s0.mem cells0) (hid : snt.id = 0) :
    ∃ s ev cells, run s0 (calls1 ++ [Call.insert snt ch] ++ calls2) = some (s, ev) ∧
      queue_holds s.buffer s.mem cells ∧ s.buffer.end_of_stream ≠ 0 := by
  obtain ⟨s1, ev1, cells1, hrun1, hq1, -, -⟩ := run_spec calls1 s0 cells0 h0
  have hst := step_insert_sentinel s1 snt ch hid
  obtain ⟨s3, ev3, cells3, hrun3, hq3, -, hc3⟩ :=
    run_spec calls2 ⟨⟨s1.buffer.head, s1.buffer.tail, 1⟩, s1.mem⟩ cells1
      (queue_holds_eos s1.buffer s1.mem cells1 1 hq1)
  refine ⟨s3, ev1 ++ (Event.insert_ret snt .SBUFFER_SUCCESS :: ev3), cells3, ?_, hq3,
    hc3 one_ne_zero⟩
  rw [List.append_assoc, run_append _ _ _ s1 ev1 hrun1, List.singleton_append,
    run_cons s1 _ _ _ _ hst, hrun3]
  rfl

/-! ## The claims -/

/-- C1, as amended: for every list of N records with non-zero ids, on a freshly
initialised queue, when the inserts of the records in order and of a record with
id 0 all return `SBUFFER_SUCCESS`, N+1 removes by one consumer return the N
records in insertion order with `SBUFFER_SUCCESS` and then `SBUFFER_NO_DATA`,
and none of them waits. -/
theorem C1_fifo_drain (ok1 ok2 ok3 : Bool) (b0 : sbuffer) (mem0 : NodeMem)
    (ins : List (sensor_data_t × Option Nat)) (snt : sensor_data_t) (c0 : Option Nat)
    (who : Nat) (out : sensor_data_t)
    (hs : (sbuffer_init ok1 ok2 ok3).status = .SBUFFER_SUCCESS)
    (hh : (sbuffer_init ok1 ok2 ok3).handle = some b0)
    (hid : ∀ x ∈ ins, x.1.id ≠ 0) (hsnt : snt.id = 0)
    (hok : (run ⟨b0, mem0⟩ (insert_calls ins ++ [Call.insert snt c0])).map Prod.snd =
      some (success_events (ins.map Prod.fst ++ [snt]))) :
    (run ⟨b0, mem0⟩ (fill_and_drain ins snt c0 who out)).map
        (fun r => r.2.drop (ins.length + 1)) =
      some (drain_events who out (ins.map Prod.fst)) := by
  have hb0 := init_success ok1 ok2 ok3 b0 hs hh
  subst hb0
  obtain ⟨sa, eva, cellsa, hrun_a, -, -, -⟩ :=
    run_spec (insert_calls ins) ⟨⟨none, none, 0⟩, mem0⟩ [] (fresh_holds mem0)
  have hst := step_insert_sentinel sa snt c0 hsnt
  have hrun1 : run ⟨⟨none, none, 0⟩, mem0⟩ (insert_calls ins ++ [Call.insert snt c0]) =
      some (⟨⟨sa.buffer.head, sa.buffer.tail, 1⟩, sa.mem⟩,
        eva ++ [Event.insert_ret snt .SBUFFER_SUCCESS]) := by
    rw [run_append _ _ _ sa eva hrun_a, run_cons sa _ [] _ _ hst]
    simp [run]
  rw [hrun1] at hok
  simp only [Option.map_some', Option.some.injEq, success_events, List.map_append,
    List.map_cons, List.map_nil] at hok
  have heva := (List.append_left_inj _).1 hok
  rw [heva] at hrun_a hrun1
  obtain ⟨cells1, hq1, hrec, -⟩ :=
    run_inserts_success ins _ sa [] (fresh_holds mem0) hid hrun_a
  rw [List.nil_append] at hq1
  have hlen : cells1.length = ins.length := by
    have := congrArg List.length hrec
    simpa [records] using this
  obtain ⟨s2, hrun2⟩ := run_drain who out cells1
    ⟨⟨sa.buffer.head, sa.buffer.tail, 1⟩, sa.mem⟩
    (queue_holds_eos sa.buffer sa.mem cells1 1 hq1) one_ne_zero
  rw [hlen, hrec] at hrun2
  unfold fill_and_drain
  rw [run_append _ _ _ _ _ hrun1, hrun2]
  simp only [Option.map_some', Option.some.injEq, drain_events]
  rw [List.drop_left']
  simp

/-- C1, witness: scenario A. -/
theorem C1_fifo_drain_witness :
    (run ⟨⟨none, none, 0⟩, NodeMem.empty⟩
        (fill_and_drain [(rec1, some 7), (rec2, some 3)] sentinel none 0 sentinel)).map
        (fun r => r.2.drop 3) =
      some [Event.remove_ret 0 .SBUFFER_SUCCESS rec1,
        Event.remove_ret 0 .SBUFFER_SUCCESS rec2,
        Event.remove_ret 0 .SBUFFER_NO_DATA sentinel] :=
  C1_fifo_drain true true true ⟨none, none, 0⟩ NodeMem.empty
    [(rec1, some 7), (rec2, some 3)] sentinel none 0 sentinel
    (by decide) (by decide) (by decide) (by decide) (by decide)

/-- C1, as stated, fails: when the allocation of the one node fails, the insert
returns `SBUFFER_FAILURE`, the record is not queued, and the first remove after
the sentinel returns `SBUFFER_NO_DATA`, not the record. -/
theorem C1_counterexample :
    ¬ (∀ (ok1 ok2 ok3 : Bool) (b0 : sbuffer) (mem0 : NodeMem)
        (ins : List (sensor_data_t × Option Nat)) (snt : sensor_data_t)
        (c0 : Option Nat) (who : Nat) (out : sensor_data_t),
        (sbuffer_init ok1 ok2 ok3).status = .SBUFFER_SUCCESS →
        (sbuffer_init ok1 ok2 ok3).handle = some b0 →
        (∀ x ∈ ins, x.1.id ≠ 0) → snt.id = 0 →
        (run ⟨b0, mem0⟩ (fill_and_drain ins snt c0 who out)).map
            (fun r => r.2.drop (ins.length + 1)) =
          some (drain_events who out (ins.map Prod.fst))) := by
  intro h
  have h1 := h true true true ⟨none, none, 0⟩ NodeMem.empty [(rec1, none)] sentinel
    none 0 sentinel (by decide) (by decide) (by decide) (by decide)
  revert h1
  decide

/-- C2: after every finite interleaving of insert and remove calls on a freshly
initialised queue, each call one atomic step and the removes by any consumers,
the records returned with `SBUFFER_SUCCESS` so far followed by the records
queued from head to tail are the non-sentinel records successfully inserted so
far, in insertion order. -/
theorem C2_delivered_then_queued_is_inserted (ok1 ok2 ok3 : Bool) (b0 : sbuffer)
    (mem0 : NodeMem) (calls : List Call)
    (hs : (sbuffer_init ok1 ok2 ok3).status = .SBUFFER_SUCCESS)
    (hh : (sbuffer_init ok1 ok2 ok3).handle = some b0) :
    ∃ s ev cells, run ⟨b0, mem0⟩ calls = some (s, ev) ∧
      queue_holds s.buffer s.mem cells ∧
      delivered ev ++ records cells = inserted ev := by
  have hb0 := init_success ok1 ok2 ok3 b0 hs hh
  subst hb0
  obtain ⟨s, ev, cells, hrun, hq, hlog, -⟩ :=
    run_spec calls ⟨⟨none, none, 0⟩, mem0⟩ [] (fresh_holds mem0)
  exact ⟨s, ev, cells, hrun, hq, by simpa [records] using hlog⟩

/-- C2, witness: scenario D, two consumers. -/
theorem C2_delivered_then_queued_is_inserted_witness :
    ∃ s ev cells, run ⟨⟨none, none, 0⟩, NodeMem.empty⟩
        [Call.insert rec1 (some 4), Call.remove 1 sentinel, Call.insert rec2 (some 4),
          Call.insert sentinel none, Call.remove 2 sentinel, Call.remove 1 sentinel] =
        some (s, ev) ∧
      queue_holds s.buffer s.mem cells ∧
      delivered ev ++ records cells = inserted ev :=
  C2_delivered_then_queued_is_inserted true true true ⟨none, none, 0⟩ NodeMem.empty _
    (by decide) (by decide)

/-- C3: on every initialised queue state, `sbuffer_remove` reaches the condition
wait instead of returning exactly when the queue is empty and `end_of_stream` is
false; and when it is woken it tests the same condition on the state it then
finds, before it returns or waits again. -/
theorem C3_remove_waits_iff (b : sbuffer) (mem : NodeMem) (out : sensor_data_t) :
    (sbuffer_remove (some b) mem out [] = .waiting ↔
      b.head = none ∧ b.end_of_stream = 0) ∧
    (∀ cells, queue_holds b mem cells →
      (sbuffer_remove (some b) mem out [] = .waiting ↔
        cells = [] ∧ b.end_of_stream = 0)) ∧
    (∀ (w : sbuffer) (wmem : NodeMem) (ws : List (sbuffer × NodeMem)),
      sbuffer_remove (some b) mem out ((w, wmem) :: ws) =
        if b.head = none ∧ b.end_of_stream = 0 then sbuffer_remove (some w) wmem out ws
        else sbuffer_remove (some b) mem out []) := by
  refine ⟨remove_waiting_iff b mem out, fun cells hq => ?_,
    fun w wmem ws => remove_wake b w mem wmem out ws⟩
  rw [remove_waiting_iff b mem out, queue_holds_head b mem cells hq]

/-- C3, witness: an empty open queue makes remove wait. -/
theorem C3_remove_waits_iff_witness :
    sbuffer_remove (some ⟨none, none, 0⟩) NodeMem.empty sentinel [] = .waiting :=
  ((C3_remove_waits_iff ⟨none, none, 0⟩ NodeMem.empty sentinel).2.1 []
    (by decide)).2 ⟨rfl, rfl⟩

/-- C4: on every empty closed queue `sbuffer_remove` returns `SBUFFER_NO_DATA`
without waiting and leaves head, tail and `end_of_stream` as they are; so any
number of consecutive removes, by any consumers, all return `SBUFFER_NO_DATA`;
and after a sentinel insert into an empty queue the next remove returns
`SBUFFER_NO_DATA`. -/
theorem C4_no_data_when_closed_and_empty (b : sbuffer) (mem : NodeMem)
    (hh : b.head = none) :
    (b.end_of_stream ≠ 0 →
      (∀ out wakes, sbuffer_remove (some b) mem out wakes =
        .returned .SBUFFER_NO_DATA (some b) mem out) ∧
      (∀ rs : List (Nat × sensor_data_t), run ⟨b, mem⟩ (remove_calls rs) =
        some (⟨b, mem⟩, rs.map (fun r => Event.remove_ret r.1 .SBUFFER_NO_DATA r.2)))) ∧
    (∀ (snt : sensor_data_t) (ch : Option Nat) (out : sensor_data_t)
      (wakes : List (sbuffer × NodeMem)), snt.id = 0 →
      ∃ b1, sbuffer_insert (some b) mem snt ch =
          .returned .SBUFFER_SUCCESS (some b1) mem .broadcast ∧
        sbuffer_remove (some b1) mem out wakes =
          .returned .SBUFFER_NO_DATA (some b1) mem out) := by
  refine ⟨fun he => ⟨fun out wakes => remove_closed_empty b mem out wakes hh he,
    fun rs => run_removes_closed ⟨b, mem⟩ hh he rs⟩, ?_⟩
  intro snt ch out wakes hid
  exact ⟨⟨b.head, b.tail, 1⟩, insert_sentinel b mem snt ch hid,
    remove_closed_empty _ mem out wakes hh one_ne_zero⟩

/-- C4, witness: scenario C, the sentinel inserted into an empty open queue. -/
theorem C4_no_data_when_closed_and_empty_witness :
    ∃ b1, sbuffer_insert (some ⟨none, none, 0⟩) NodeMem.empty sentinel none =
        .returned .SBUFFER_SUCCESS (some b1) NodeMem.empty .broadcast ∧
      sbuffer_remove (some b1) NodeMem.empty rec1 [] =
        .returned .SBUFFER_NO_DATA (some b1) NodeMem.empty rec1 :=
  (C4_no_data_when_closed_and_empty ⟨none, none, 0⟩ NodeMem.empty rfl).2
    sentinel none rec1 [] rfl

/-- C5: on every non-empty queue state, open or closed, `sbuffer_remove` returns
`SBUFFER_SUCCESS`, writes the record of the head node to the output, frees
exactly that node, leaves the other records queued in the same order, and
leaves `end_of_stream` as it is. -/
theorem C5_remove_nonempty (b : sbuffer) (mem : NodeMem) (a : Nat)
    (d out : sensor_data_t) (rest : List (Nat × sensor_data_t))
    (wakes : List (sbuffer × NodeMem)) (h : queue_holds b mem ((a, d) :: rest)) :
    b.head = some a ∧ (mem a).map sbuffer_node_t.data = some d ∧
    ∃ b1, sbuffer_remove (some b) mem out wakes =
        .returned .SBUFFER_SUCCESS (some b1) (free mem a) d ∧
      queue_holds b1 (free mem a) rest ∧ b1.end_of_stream = b.end_of_stream := by
  obtain ⟨hp, n, hn, hd, -⟩ := (is_chain_cons mem b.head (a, d) rest).1 h.1
  refine ⟨hp, ?_, remove_cons b mem a d out rest wakes h⟩
  simp only at hn hd
  simp [hn, hd]

/-- C5, witness: a closed queue of two nodes. -/
theorem C5_remove_nonempty_witness :
    (⟨some 7, some 3, 1⟩ : sbuffer).head = some 7 ∧
    (mem_two 7).map sbuffer_node_t.data = some rec1 ∧
    ∃ b1, sbuffer_remove (some ⟨some 7, some 3, 1⟩) mem_two sentinel [] =
        .returned .SBUFFER_SUCCESS (some b1) (free mem_two 7) rec1 ∧
      queue_holds b1 (free mem_two 7) [(3, rec2)] ∧
      b1.end_of_stream = (⟨some 7, some 3, 1⟩ : sbuffer).end_of_stream :=
  C5_remove_nonempty ⟨some 7, some 3, 1⟩ mem_two 7 rec1 sentinel [(3, rec2)] []
    (by decide)

/-- C6: on every initialised queue state, `sbuffer_insert` of a record with id 0
returns `SBUFFER_SUCCESS`, sets `end_of_stream`, allocates and links no node,
and leaves head, tail, the node memory and so the queued records as they were. -/
theorem C6_sentinel_insert (b : sbuffer) (mem : NodeMem) (data : sensor_data_t)
    (ch : Option Nat) (hid : data.id = 0) :
    sbuffer_insert (some b) mem data ch =
        .returned .SBUFFER_SUCCESS (some ⟨b.head, b.tail, 1⟩) mem .broadcast ∧
      ∀ cells, queue_holds b mem cells → queue_holds ⟨b.head, b.tail, 1⟩ mem cells :=
  ⟨insert_sentinel b mem data ch hid, fun cells h => queue_holds_eos b mem cells 1 h⟩

/-- C6, witness: the sentinel inserted into an open queue of two nodes. -/
theorem C6_sentinel_insert_witness :
    sbuffer_insert (some ⟨some 7, some 3, 0⟩) mem_two sentinel (some 5) =
        .returned .SBUFFER_SUCCESS (some ⟨some 7, some 3, 1⟩) mem_two .broadcast ∧
      queue_holds ⟨some 7, some 3, 1⟩ mem_two [(7, rec1), (3, rec2)] :=
  ⟨(C6_sentinel_insert ⟨some 7, some 3, 0⟩ mem_two sentinel (some 5) rfl).1,
    (C6_sentinel_insert ⟨some 7, some 3, 0⟩ mem_two sentinel (some 5) rfl).2 _
      (by decide)⟩

/-- C7: on every initialised queue state, open or closed, `sbuffer_insert` of a
record with id other than 0 whose node allocation succeeds returns
`SBUFFER_SUCCESS`, and the queued records are the previous ones, in their
order, followed by the new record. -/
theorem C7_payload_insert (b : sbuffer) (mem : NodeMem) (data : sensor_data_t)
    (choice : Option Nat) (a : Nat) (cells : List (Nat × sensor_data_t))
    (h : queue_holds b mem cells) (hid : data.id ≠ 0)
    (hm : malloc mem choice = some a) :
    ∃ b1 mem1, sbuffer_insert (some b) mem data choice =
        .returned .SBUFFER_SUCCESS (some b1) mem1 .signal ∧
      queue_holds b1 mem1 (cells ++ [(a, data)]) ∧
      records (cells ++ [(a, data)]) = records cells ++ [data] ∧
      b1.end_of_stream = b.end_of_stream := by
  obtain ⟨b1, mem1, hins, hq, he⟩ := insert_payload b mem data choice a cells h hid hm
  exact ⟨b1, mem1, hins, hq, by simp [records], he⟩

/-- C7, witness: a payload insert into a closed queue of one node. -/
theorem C7_payload_insert_witness :
    ∃ b1 mem1, sbuffer_insert (some ⟨some 7, some 7, 1⟩) mem_one rec2 (some 3) =
        .returned .SBUFFER_SUCCESS (some b1) mem1 .signal ∧
      queue_holds b1 mem1 ([(7, rec1)] ++ [(3, rec2)]) ∧
      records ([(7, rec1)] ++ [(3, rec2)]) = records [(7, rec1)] ++ [rec2] ∧
      b1.end_of_stream = (⟨some 7, some 7, 1⟩ : sbuffer).end_of_stream :=
  C7_payload_insert ⟨some 7, some 7, 1⟩ mem_one rec2 (some 3) 3 [(7, rec1)]
    (by decide) (by decide) (by decide)

/-- C8: closure is monotonic.  From a state in which `end_of_stream` is true,
every `sbuffer_insert` (sentinel or payload, succeeding or failing) and every
`sbuffer_remove` that returns leaves it true; on a well-formed closed queue
every call does return and leaves it true; and after a sentinel insert,
whatever calls came before and come after, the queue is closed. -/
theorem C8_closed_stays_closed :
    (∀ (b : sbuffer) (mem : NodeMem), b.end_of_stream ≠ 0 →
      (∀ data ch st b1 mem1 w,
        sbuffer_insert (some b) mem data ch = .returned st (some b1) mem1 w →
        b1.end_of_stream ≠ 0) ∧
      (∀ out wakes st b1 mem1 d,
        sbuffer_remove (some b) mem out wakes = .returned st (some b1) mem1 d →
        b1.end_of_stream ≠ 0)) ∧
    (∀ (s : Sys) (c : Call) (cells : List (Nat × sensor_data_t)),
      queue_holds s.buffer s.mem cells → s.buffer.end_of_stream ≠ 0 →
      ∃ s1 e, step s c = some (s1, e) ∧ s1.buffer.end_of_stream ≠ 0) ∧
    (∀ (ok1 ok2 ok3 : Bool) (b0 : sbuffer) (mem0 : NodeMem) (calls1 calls2 : List Call)
      (snt : sensor_data_t) (ch : Option Nat),
      (sbuffer_init ok1 ok2 ok3).status = .SBUFFER_SUCCESS →
      (sbuffer_init ok1 ok2 ok3).handle = some b0 → snt.id = 0 →
      ∃ s ev, run ⟨b0, mem0⟩ (calls1 ++ [Call.insert snt ch] ++ calls2) = some (s, ev) ∧
        s.buffer.end_of_stream ≠ 0) := by
  refine ⟨fun b mem hc => ⟨?_, ?_⟩, ?_, ?_⟩
  · intro data ch st b1 mem1 w h
    rw [insert_eos b b1 mem mem1 data ch st w h]
    split
    · exact one_ne_zero
    · exact hc
  · intro out wakes st b1 mem1 d h
    rcases remove_eos_frame out wakes b b1 mem mem1 st d h with ⟨-, hx⟩ | ⟨-, he, -⟩
    · rw [hx]; exact hc
    · exact absurd he hc
  · intro s c cells hq hc
    obtain ⟨s1, e, -, hst, -, -, hsent, hkeep⟩ := step_spec s c cells hq
    refine ⟨s1, e, hst, ?_⟩
    by_cases hs : is_sentinel_insert c
    · rw [hsent hs]; exact one_ne_zero
    · rw [hkeep hs]; exact hc
  · intro ok1 ok2 ok3 b0 mem0 calls1 calls2 snt ch hs hh hid
    have hb0 := init_success ok1 ok2 ok3 b0 hs hh
    subst hb0
    obtain ⟨s, ev, -, hrun, -, hc⟩ :=
      run_after_sentinel ⟨⟨none, none, 0⟩, mem0⟩ [] calls1 calls2 snt ch
        (fresh_holds mem0) hid
    exact ⟨s, ev, hrun, hc⟩

/-- C8, witness: a payload insert whose allocation fails, on a closed queue. -/
theorem C8_closed_stays_closed_witness :
    ∃ s1 e, step ⟨⟨some 7, some 7, 1⟩, mem_one⟩ (Call.insert rec2 none) = some (s1, e) ∧
      s1.buffer.end_of_stream ≠ 0 :=
  C8_closed_stays_closed.2.1 ⟨⟨some 7, some 7, 1⟩, mem_one⟩ (Call.insert rec2 none)
    [(7, rec1)] (by decide) (by decide)

/-- C9: the closed flag changes only on a sentinel insert.  From a state in which
`end_of_stream` is false, an insert of a record with id other than 0, succeeding
or failing, and a remove, whatever it returns, leave it false; and in one step on
a well-formed open queue it becomes true exactly when the step is an insert of a
record with id 0. -/
theorem C9_closed_only_by_sentinel :
    (∀ (b : sbuffer) (mem : NodeMem), b.end_of_stream = 0 →
      (∀ data ch st b1 mem1 w, data.id ≠ 0 →
        sbuffer_insert (some b) mem data ch = .returned st (some b1) mem1 w →
        b1.end_of_stream = 0) ∧
      (∀ out wakes st b1 mem1 d, (∀ w ∈ wakes, w.1.end_of_stream = 0) →
        sbuffer_remove (some b) mem out wakes = .returned st (some b1) mem1 d →
        b1.end_of_stream = 0)) ∧
    (∀ (s : Sys) (c : Call) (cells : List (Nat × sensor_data_t)),
      queue_holds s.buffer s.mem cells → s.buffer.end_of_stream = 0 →
      ∃ s1 e, step s c = some (s1, e) ∧
        (s1.buffer.end_of_stream ≠ 0 ↔ is_sentinel_insert c)) := by
  refine ⟨fun b mem ho => ⟨?_, ?_⟩, ?_⟩
  · intro data ch st b1 mem1 w hid h
    rw [insert_eos b b1 mem mem1 data ch st w h, if_neg hid]
    exact ho
  · intro out wakes st b1 mem1 d hw h
    rcases remove_eos_frame out wakes b b1 mem mem1 st d h with
      ⟨-, hx⟩ | ⟨-, -, w, hwm, hx⟩
    · rw [hx]; exact ho
    · rw [hx]; exact hw w hwm
  · intro s c cells hq ho
    obtain ⟨s1, e, -, hst, -, -, hsent, hkeep⟩ := step_spec s c cells hq
    refine ⟨s1, e, hst, ?_⟩
    by_cases hs : is_sentinel_insert c
    · rw [hsent hs]; simp [hs]
    · rw [hkeep hs, ho]; simp [hs]

/-- C9, witness: a remove on an open queue of two nodes. -/
theorem C9_closed_only_by_sentinel_witness :
    ∃ s1 e, step ⟨⟨some 7, some 3, 0⟩, mem_two⟩ (Call.remove 0 sentinel) = some (s1, e) ∧
      (s1.buffer.end_of_stream ≠ 0 ↔ is_sentinel_insert (Call.remove 0 sentinel)) :=
  C9_closed_only_by_sentinel.2 ⟨⟨some 7, some 3, 0⟩, mem_two⟩ (Call.remove 0 sentinel)
    [(7, rec1), (3, rec2)] (by decide) (by decide)

/-- C10: in every queue state reached from a successful `sbuffer_init` by a
finite sequence of insert and remove calls, head is `NULL` if and only if tail
is `NULL` if and only if the queue holds no record. -/
theorem C10_head_null_iff_tail_null_iff_empty (ok1 ok2 ok3 : Bool) (b0 : sbuffer)
    (mem0 : NodeMem) (calls : List Call)
    (hs : (sbuffer_init ok1 ok2 ok3).status = .SBUFFER_SUCCESS)
    (hh : (sbuffer_init ok1 ok2 ok3).handle = some b0) :
    ∃ s ev cells, run ⟨b0, mem0⟩ calls = some (s, ev) ∧
      queue_holds s.buffer s.mem cells ∧
      (s.buffer.head = none ↔ s.buffer.tail = none) ∧
      (s.buffer.tail = none ↔ cells = []) ∧
      (s.buffer.head = none ↔ cells = []) := by
  have hb0 := init_success ok1 ok2 ok3 b0 hs hh
  subst hb0
  obtain ⟨s, ev, cells, hrun, hq, -, -⟩ :=
    run_spec calls ⟨⟨none, none, 0⟩, mem0⟩ [] (fresh_holds mem0)
  have h1 := queue_holds_head s.buffer s.mem cells hq
  have h2 := queue_holds_tail s.buffer s.mem cells hq
  exact ⟨s, ev, cells, hrun, hq, h1.trans h2.symm, h2, h1⟩

/-- C10, witness: two inserts, a remove, a failed insert and two more removes. -/
theorem C10_head_null_iff_tail_null_iff_empty_witness :
    ∃ s ev cells, run ⟨⟨none, none, 0⟩, NodeMem.empty⟩
        [Call.insert rec1 (some 7), Call.insert rec2 (some 3), Call.remove 0 sentinel,
          Call.insert rec1 none, Call.remove 1 sentinel, Call.remove 0 sentinel] =
        some (s, ev) ∧
      queue_holds s.buffer s.mem cells ∧
      (s.buffer.head = none ↔ s.buffer.tail = none) ∧
      (s.buffer.tail = none ↔ cells = []) ∧
      (s.buffer.head = none ↔ cells = []) :=
  C10_head_null_iff_tail_null_iff_empty true true true ⟨none, none, 0⟩ NodeMem.empty _
    (by decide) (by decide)

/-! ## Failure paths and the output record -/

/-- A returned `sbuffer_remove` on an initialised queue either succeeded or
returned `SBUFFER_NO_DATA` with the output record untouched. -/
theorem remove_returned_cases (out : sensor_data_t) :
    ∀ (wakes : List (sbuffer × NodeMem)) (b : sbuffer) (mem mem1 : NodeMem)
      (st : Status) (b1 : Option sbuffer) (d : sensor_data_t),
      sbuffer_remove (some b) mem out wakes = .returned st b1 mem1 d →
      st = .SBUFFER_SUCCESS ∨ (st = .SBUFFER_NO_DATA ∧ d = out) := by
  intro wakes
  induction wakes with
  | nil =>
    intro b mem mem1 st b1 d h
    cases hh : b.head with
    | none =>
      rw [remove_nil b mem out hh] at h
      by_cases he : b.end_of_stream = 0
      · simp [he] at h
      · simp only [ne_eq, he, not_false_eq_true, if_true,
          remove_outcome.returned.injEq] at h
        exact Or.inr ⟨h.1.symm, h.2.2.2.symm⟩
    | some a =>
      cases hm : mem a with
      | none => rw [remove_dead b mem out [] a hh hm] at h; cases h
      | some n =>
        rw [remove_live b mem out [] a n hh hm] at h
        simp only [remove_outcome.returned.injEq] at h
        exact Or.inl h.1.symm
  | cons w ws ih =>
    intro b mem mem1 st b1 d h
    obtain ⟨wb, wm⟩ := w
    cases hh : b.head with
    | none =>
      by_cases he : b.end_of_stream = 0
      · rw [remove_wake b wb mem wm out ws, if_pos ⟨hh, he⟩] at h
        exact ih wb wm mem1 st b1 d h
      · rw [remove_closed_empty b mem out _ hh he] at h
        simp only [remove_outcome.returned.injEq] at h
        exact Or.inr ⟨h.1.symm, h.2.2.2.symm⟩
    | some a =>
      cases hm : mem a with
      | none => rw [remove_dead b mem out _ a hh hm] at h; cases h
      | some n =>
        rw [remove_live b mem out _ a n hh hm] at h
        simp only [remove_outcome.returned.injEq] at h
        exact Or.inl h.1.symm

/-- C11: when the node allocation fails in `sbuffer_insert` of a record with id
other than 0, the call returns `SBUFFER_FAILURE`, wakes nobody, and head, tail,
`end_of_stream` and the node memory, so the queued records, are what they were. -/
theorem C11_insert_alloc_failure (b : sbuffer) (mem : NodeMem) (data : sensor_data_t)
    (choice : Option Nat) (hid : data.id ≠ 0) (hm : malloc mem choice = none) :
    sbuffer_insert (some b) mem data choice =
        .returned .SBUFFER_FAILURE (some b) mem .nobody ∧
      step ⟨b, mem⟩ (Call.insert data choice) =
        some (⟨b, mem⟩, Event.insert_ret data .SBUFFER_FAILURE) :=
  ⟨insert_alloc_fails b mem data choice hid hm,
    step_insert_fail ⟨b, mem⟩ data choice hid hm⟩

/-- C11, witness: the allocation fails on a queue of two nodes. -/
theorem C11_insert_alloc_failure_witness :
    sbuffer_insert (some ⟨some 7, some 3, 0⟩) mem_two rec1 none =
      .returned .SBUFFER_FAILURE (some ⟨some 7, some 3, 0⟩) mem_two .nobody :=
  (C11_insert_alloc_failure ⟨some 7, some 3, 0⟩ mem_two rec1 none (by decide) rfl).1

/-- C12: `sbuffer_remove` returns `SBUFFER_FAILURE` if and only if the queue
pointer is `NULL`; on an initialised queue a call that returns gives
`SBUFFER_SUCCESS` or `SBUFFER_NO_DATA`, and on a well-formed one the call either
returns one of the two or waits. -/
theorem C12_remove_failure_iff_null (buffer : Option sbuffer) (mem : NodeMem)
    (out : sensor_data_t) (wakes : List (sbuffer × NodeMem)) :
    ((∃ b1 mem1 d, sbuffer_remove buffer mem out wakes =
        .returned .SBUFFER_FAILURE b1 mem1 d) ↔ buffer = none) ∧
    (∀ b st b1 mem1 d, buffer = some b →
      sbuffer_remove buffer mem out wakes = .returned st b1 mem1 d →
      st = .SBUFFER_SUCCESS ∨ st = .SBUFFER_NO_DATA) ∧
    (∀ b cells, buffer = some b → queue_holds b mem cells →
      sbuffer_remove buffer mem out [] = .waiting ∨
      ∃ st b1 mem1 d, sbuffer_remove buffer mem out [] = .returned st (some b1) mem1 d ∧
        (st = .SBUFFER_SUCCESS ∨ st = .SBUFFER_NO_DATA)) := by
  refine ⟨⟨?_, ?_⟩, ?_, ?_⟩
  · rintro ⟨b1, mem1, d, h⟩
    cases buffer with
    | none => rfl
    | some b =>
      rcases remove_returned_cases out wakes b mem mem1 _ b1 d h with h1 | ⟨h1, -⟩ <;>
        cases h1
  · rintro rfl
    exact ⟨none, mem, out, rfl⟩
  · rintro b st b1 mem1 d rfl h
    rcases remove_returned_cases out wakes b mem mem1 st b1 d h with h1 | ⟨h1, -⟩
    · exact Or.inl h1
    · exact Or.inr h1
  · rintro b cells rfl hq
    cases cells with
    | nil =>
      have hh := ((queue_holds_nil_iff b mem).1 hq).1
      rw [remove_nil b mem out hh]
      by_cases he : b.end_of_stream = 0
      · left; simp [he]
      · right; exact ⟨.SBUFFER_NO_DATA, b, mem, out, by simp [he], Or.inr rfl⟩
    | cons c rest =>
      obtain ⟨a, d⟩ := c
      obtain ⟨b1, hrem, -, -⟩ := remove_cons b mem a d out rest [] hq
      exact Or.inr ⟨.SBUFFER_SUCCESS, b1, free mem a, d, hrem, Or.inl rfl⟩

/-- C12, witness: on a closed queue of two nodes remove returns, and not with
`SBUFFER_FAILURE`. -/
theorem C12_remove_failure_iff_null_witness :
    sbuffer_remove (some ⟨some 7, some 3, 1⟩) mem_two sentinel [] = .waiting ∨
      ∃ st b1 mem1 d, sbuffer_remove (some ⟨some 7, some 3, 1⟩) mem_two sentinel [] =
          .returned st (some b1) mem1 d ∧
        (st = .SBUFFER_SUCCESS ∨ st = .SBUFFER_NO_DATA) :=
  (C12_remove_failure_iff_null (some ⟨some 7, some 3, 1⟩) mem_two sentinel []).2.2
    ⟨some 7, some 3, 1⟩ [(7, rec1), (3, rec2)] rfl (by decide)

/-! ## The terminal state, the sentinel and the threads -/

/-- C13, as amended: from a queue that is closed and empty, every insert or
remove call returns and leaves the queue closed; the queue is still empty
unless the call is an insert of a record with id other than 0 whose allocation
succeeds, and then it holds exactly that record. -/
theorem C13_closed_empty_after_call (s : Sys) (c : Call)
    (hq : queue_holds s.buffer s.mem []) (hc : s.buffer.end_of_stream ≠ 0) :
    ∃ s1 e, step s c = some (s1, e) ∧ s1.buffer.end_of_stream ≠ 0 ∧
      (∀ d ch a, c = Call.insert d ch → d.id ≠ 0 → malloc s.mem ch = some a →
        queue_holds s1.buffer s1.mem [(a, d)]) ∧
      ((¬ ∃ d ch a, c = Call.insert d ch ∧ d.id ≠ 0 ∧ malloc s.mem ch = some a) →
        queue_holds s1.buffer s1.mem []) := by
  have hh := ((queue_holds_nil_iff s.buffer s.mem).1 hq).1
  cases c with
  | insert d ch =>
    by_cases hid : d.id = 0
    · refine ⟨_, _, step_insert_sentinel s d ch hid, one_ne_zero, ?_, fun _ => hq⟩
      intro d1 ch1 a heq hd1
      cases heq
      exact absurd hid hd1
    · cases hm : malloc s.mem ch with
      | none =>
        refine ⟨_, _, step_insert_fail s d ch hid hm, hc, ?_, fun _ => hq⟩
        intro d1 ch1 a heq _ hm1
        cases heq
        rw [hm] at hm1
        cases hm1
      | some a =>
        obtain ⟨s1, hst, hq1, he⟩ := step_insert_ok s d ch a [] hq hid hm
        refine ⟨s1, _, hst, by rw [he]; exact hc, ?_, ?_⟩
        · intro d1 ch1 a1 heq _ hm1
          cases heq
          rw [hm] at hm1
          cases hm1
          simpa using hq1
        · intro hno
          exact absurd ⟨d, ch, a, rfl, hid, hm⟩ hno
  | remove who out =>
    refine ⟨_, _, step_remove_closed s who out hh hc, hc, ?_, fun _ => hq⟩
    intro d ch a heq
    cases heq

/-- C13, witness: a remove on a closed empty queue. -/
theorem C13_closed_empty_after_call_witness :
    ∃ s1 e, step ⟨⟨none, none, 1⟩, NodeMem.empty⟩ (Call.remove 0 rec1) = some (s1, e) ∧
      s1.buffer.end_of_stream ≠ 0 ∧
      (∀ d ch a, Call.remove 0 rec1 = Call.insert d ch → d.id ≠ 0 →
        malloc NodeMem.empty ch = some a → queue_holds s1.buffer s1.mem [(a, d)]) ∧
      ((¬ ∃ d ch a, Call.remove 0 rec1 = Call.insert d ch ∧ d.id ≠ 0 ∧
          malloc NodeMem.empty ch = some a) →
        queue_holds s1.buffer s1.mem []) :=
  C13_closed_empty_after_call ⟨⟨none, none, 1⟩, NodeMem.empty⟩ (Call.remove 0 rec1)
    (by decide) (by decide)

/-- C13, as stated, fails: a payload insert into a closed empty queue queues the
record, so the queue is no longer empty. -/
theorem C13_counterexample :
    ¬ (∀ (s : Sys) (c : Call), queue_holds s.buffer s.mem [] →
        s.buffer.end_of_stream ≠ 0 →
        ∀ s1 e, step s c = some (s1, e) →
          queue_holds s1.buffer s1.mem [] ∧ s1.buffer.end_of_stream ≠ 0) := by
  intro h
  have h1 := h ⟨⟨none, none, 1⟩, NodeMem.empty⟩ (Call.insert rec1 (some 7))
    (by decide) (by decide)
    ⟨⟨some 7, some 7, 1⟩, store NodeMem.empty 7 ⟨none, rec1⟩⟩
    (Event.insert_ret rec1 .SBUFFER_SUCCESS) rfl
  have h2 := ((queue_holds_nil_iff _ _).1 h1.1).1
  cases h2

theorem inserted_ids : ∀ (ev : List Event), ∀ d ∈ inserted ev, d.id ≠ 0 := by
  intro ev
  induction ev with
  | nil => intro d hd; simp [inserted] at hd
  | cons e es ih =>
    intro d hd
    rw [inserted_cons] at hd
    rcases List.mem_append.1 hd with h1 | h1
    · cases e with
      | insert_ret x st =>
        cases st <;> simp only [inserted, List.not_mem_nil] at h1
        by_cases hx : x.id = 0
        · simp [hx] at h1
        · simp only [hx, if_false, List.mem_singleton] at h1
          rw [h1]; exact hx
      | remove_ret who st x => simp [inserted] at h1
      | remove_wait who => simp [inserted] at h1
    · exact ih d h1

theorem results_of_delivered (who : Nat) :
    ∀ (ev : List Event) (d : sensor_data_t),
      (Status.SBUFFER_SUCCESS, d) ∈ results_of who ev → d ∈ delivered ev := by
  intro ev
  induction ev with
  | nil => intro d hd; simp [results_of] at hd
  | cons e es ih =>
    intro d hd
    rw [delivered_cons]
    cases e with
    | insert_ret x st =>
      simp only [results_of] at hd
      exact List.mem_append_right _ (ih d hd)
    | remove_wait c =>
      simp only [results_of] at hd
      exact List.mem_append_right _ (ih d hd)
    | remove_ret c st x =>
      simp only [results_of] at hd
      by_cases hcw : c = who
      · simp only [hcw, if_true, List.mem_cons, Prod.mk.injEq] at hd
        rcases hd with ⟨h1, h2⟩ | hd
        · subst h1; subst h2
          simp [delivered]
        · exact List.mem_append_right _ (ih d hd)
      · simp only [hcw, if_false] at hd
        exact List.mem_append_right _ (ih d hd)

theorem reader_thread_lines :
    ∀ (l : List (Status × sensor_data_t)) (line : Int × Nat × Int),
      line ∈ reader_thread l →
      ∃ d, (Status.SBUFFER_SUCCESS, d) ∈ l ∧ line = (d.id, d.value, d.ts) := by
  intro l
  induction l with
  | nil => intro line h; simp [reader_thread] at h
  | cons x rest ih =>
    intro line h
    obtain ⟨st, d⟩ := x
    cases st with
    | SBUFFER_NO_DATA => simp [reader_thread] at h
    | SBUFFER_FAILURE =>
      simp only [reader_thread, reduceCtorEq, if_false] at h
      obtain ⟨d1, hd1, hl⟩ := ih line h
      exact ⟨d1, List.mem_cons_of_mem _ hd1, hl⟩
    | SBUFFER_SUCCESS =>
      simp only [reader_thread, reduceCtorEq, if_false, if_true, List.mem_cons] at h
      rcases h with h | h
      · exact ⟨d, by simp, h⟩
      · obtain ⟨d1, hd1, hl⟩ := ih line h
        exact ⟨d1, List.mem_cons_of_mem _ hd1, hl⟩

/-- C14: in every queue state reached from a successful `sbuffer_init` by insert
and remove calls, every queued record has an id other than 0; so has every
record that `sbuffer_remove` returned with `SBUFFER_SUCCESS`, and every line
that the loop of `reader_thread` of any consumer writes to the sink. -/
theorem C14_sentinel_never_delivered (ok1 ok2 ok3 : Bool) (b0 : sbuffer)
    (mem0 : NodeMem) (calls : List Call)
    (hs : (sbuffer_init ok1 ok2 ok3).status = .SBUFFER_SUCCESS)
    (hh : (sbuffer_init ok1 ok2 ok3).handle = some b0) :
    ∃ s ev cells, run ⟨b0, mem0⟩ calls = some (s, ev) ∧
      queue_holds s.buffer s.mem cells ∧
      (∀ c ∈ cells, c.2.id ≠ 0) ∧
      (∀ d ∈ delivered ev, d.id ≠ 0) ∧
      (∀ who, ∀ line ∈ reader_thread (results_of who ev), line.1 ≠ 0) := by
  have hb0 := init_success ok1 ok2 ok3 b0 hs hh
  subst hb0
  obtain ⟨s, ev, cells, hrun, hq, hlog, -⟩ :=
    run_spec calls ⟨⟨none, none, 0⟩, mem0⟩ [] (fresh_holds mem0)
  have hlog1 : delivered ev ++ records cells = inserted ev := by
    simpa [records] using hlog
  have hdel : ∀ d ∈ delivered ev, d.id ≠ 0 := fun d hd =>
    inserted_ids ev d (hlog1 ▸ List.mem_append_left _ hd)
  refine ⟨s, ev, cells, hrun, hq, ?_, hdel, ?_⟩
  · intro c hc
    apply inserted_ids ev
    rw [← hlog1]
    exact List.mem_append_right _ (List.mem_map.2 ⟨c, hc, rfl⟩)
  · intro who line hl
    obtain ⟨d, hd, rfl⟩ := reader_thread_lines _ line hl
    exact hdel d (results_of_delivered who ev d hd)

/-- C14, witness: a source record with id 0 in the middle of the stream closes
the queue and is never handed to a consumer. -/
theorem C14_sentinel_never_delivered_witness :
    ∃ s ev cells, run ⟨⟨none, none, 0⟩, NodeMem.empty⟩
        [Call.insert rec1 (some 7), Call.insert sentinel (some 3),
          Call.insert rec2 (some 3), Call.remove 0 sentinel, Call.remove 1 sentinel,
          Call.remove 0 sentinel] = some (s, ev) ∧
      queue_holds s.buffer s.mem cells ∧
      (∀ c ∈ cells, c.2.id ≠ 0) ∧
      (∀ d ∈ delivered ev, d.id ≠ 0) ∧
      (∀ who, ∀ line ∈ reader_thread (results_of who ev), line.1 ≠ 0) :=
  C14_sentinel_never_delivered true true true ⟨none, none, 0⟩ NodeMem.empty _
    (by decide) (by decide)

theorem writer_loop_records :
    ∀ (recs : List sensor_data_t) (rest : source_rest) (data : sensor_data_t),
      (writer_loop data recs rest).1 = recs := by
  intro recs
  induction recs with
  | nil => intro rest data; cases rest <;> rfl
  | cons r rs ih =>
    intro rest data
    simp only [writer_loop, ih rest r]

theorem insert_calls_append (xs ys : List (sensor_data_t × Option Nat)) :
    insert_calls (xs ++ ys) = insert_calls xs ++ insert_calls ys := by
  simp [insert_calls]

/-- C15, on the code: when the source cannot be opened, `writer_thread` leaves
through `pthread_exit` without a single `sbuffer_insert` call, so a freshly
initialised queue is still open when the producer has finished.  When the
source is opened, every whole record of the source is passed to
`sbuffer_insert` in source order, a record with id 0 is passed last, and the
queue is closed afterwards. -/
theorem C15_writer_thread_sentinel (data : sensor_data_t) (mem0 : NodeMem) :
    writer_thread none data = [] ∧
    (run (fresh mem0) (insert_calls ((writer_thread none data).map (fun d => (d, none))))
        = some (fresh mem0, []) ∧ (fresh mem0).buffer.end_of_stream = 0) ∧
    (∀ recs rest, ∃ v t, writer_thread (some (recs, rest)) data = recs ++ [⟨0, v, t⟩]) ∧
    (∀ recs rest (ins : List (sensor_data_t × Option Nat)),
      ins.map Prod.fst = writer_thread (some (recs, rest)) data →
      ∃ s ev, run (fresh mem0) (insert_calls ins) = some (s, ev) ∧
        s.buffer.end_of_stream ≠ 0) := by
  refine ⟨rfl, ⟨rfl, rfl⟩, ?_, ?_⟩
  · intro recs rest
    refine ⟨(writer_loop data recs rest).2.value, (writer_loop data recs rest).2.ts, ?_⟩
    simp [writer_thread, writer_loop_records]
  · intro recs rest ins hins
    rcases List.eq_nil_or_concat ins with hnil | ⟨front, x, hx⟩
    · subst hnil
      simp [writer_thread] at hins
    · rw [List.concat_eq_append] at hx
      subst hx
      have hlast : x.1.id = 0 := by
        simp only [writer_thread, List.map_append, List.map_cons, List.map_nil] at hins
        have := List.append_inj_right' hins rfl
        simp only [List.cons.injEq, and_true] at this
        rw [this]
      obtain ⟨s, ev, -, hrun, -, hc⟩ :=
        run_after_sentinel (fresh mem0) [] (insert_calls front) [] x.1 x.2
          (fresh_holds mem0) hlast
      refine ⟨s, ev, ?_, hc⟩
      rw [insert_calls_append]
      simpa [insert_calls] using hrun

/-- C16: when `sbuffer_init` returns `SBUFFER_SUCCESS` the handle refers to a
live queue with head and tail `NULL`, no record and `end_of_stream` false, on
which a remove before any insert waits; and it returns `SBUFFER_FAILURE` exactly
when the allocation of the queue or the initialisation of the mutex or of the
condition variable fails. -/
theorem C16_init_empty_open (malloc_ok mutex_ok cond_ok : Bool) :
    ((sbuffer_init malloc_ok mutex_ok cond_ok).status = .SBUFFER_SUCCESS →
      ∃ b, (sbuffer_init malloc_ok mutex_ok cond_ok).handle = some b ∧
        (sbuffer_init malloc_ok mutex_ok cond_ok).live = true ∧
        b.head = none ∧ b.tail = none ∧ b.end_of_stream = 0 ∧
        (∀ mem, queue_holds b mem []) ∧
        (∀ mem out, sbuffer_remove (some b) mem out [] = .waiting)) ∧
    ((sbuffer_init malloc_ok mutex_ok cond_ok).status = .SBUFFER_FAILURE ↔
      (malloc_ok = false ∨ mutex_ok = false ∨ cond_ok = false)) ∧
    ((sbuffer_init malloc_ok mutex_ok cond_ok).status = .SBUFFER_SUCCESS ↔
      (malloc_ok = true ∧ mutex_ok = true ∧ cond_ok = true)) := by
  refine ⟨?_, ?_, ?_⟩
  · intro hs
    have hst : (sbuffer_init malloc_ok mutex_ok cond_ok).handle = some ⟨none, none, 0⟩ ∧
        (sbuffer_init malloc_ok mutex_ok cond_ok).live = true := by
      cases malloc_ok <;> cases mutex_ok <;> cases cond_ok <;>
        simp [sbuffer_init] at hs ⊢
    refine ⟨⟨none, none, 0⟩, hst.1, hst.2, rfl, rfl, rfl, fun mem => fresh_holds mem,
      fun mem out => ?_⟩
    exact (remove_waiting_iff ⟨none, none, 0⟩ mem out).2 ⟨rfl, rfl⟩
  · cases malloc_ok <;> cases mutex_ok <;> cases cond_ok <;> simp [sbuffer_init]
  · cases malloc_ok <;> cases mutex_ok <;> cases cond_ok <;> simp [sbuffer_init]

/-- C16, witness: the three steps of `sbuffer_init` succeed. -/
theorem C16_init_empty_open_witness :
    ∃ b, (sbuffer_init true true true).handle = some b ∧
      (sbuffer_init true true true).live = true ∧
      b.head = none ∧ b.tail = none ∧ b.end_of_stream = 0 ∧
      (∀ mem, queue_holds b mem []) ∧
      (∀ mem out, sbuffer_remove (some b) mem out [] = .waiting) :=
  (C16_init_empty_open true true true).1 (by decide)

/-! ## Waiting consumers -/

/-- Removes on an empty open queue: every one goes to wait and the queue stays
as it is. -/
theorem run_removes_open (s : Sys) (hh : s.buffer.head = none)
    (he : s.buffer.end_of_stream = 0) :
    ∀ rs : List (Nat × sensor_data_t),
      run s (remove_calls rs) = some (s, rs.map (fun r => Event.remove_wait r.1)) := by
  intro rs
  induction rs with
  | nil => rfl
  | cons r rs ih =>
    have hst := step_remove_open s r.1 r.2 hh he
    simp only [remove_calls, List.map_cons] at ih ⊢
    rw [run_cons s _ _ s _ hst, ih]
    rfl

/-- A consumer that went to wait on an empty open queue and is woken does what a
new remove call does on the state it finds. -/
theorem resume_eq_run (b0 : sbuffer) (mem0 : NodeMem) (hh : b0.head = none)
    (he : b0.end_of_stream = 0) :
    ∀ (woken : List (Nat × sensor_data_t)) (s : Sys),
      resume b0 mem0 s woken = run s (remove_calls woken) := by
  intro woken
  induction woken with
  | nil => intro s; rfl
  | cons c rest ih =>
    intro s
    have hw : sbuffer_remove (some b0) mem0 c.2 [(s.buffer, s.mem)] =
        sbuffer_remove (some s.buffer) s.mem c.2 [] := by
      rw [remove_wake b0 s.buffer mem0 s.mem c.2 [], if_pos ⟨hh, he⟩]
    simp only [resume, hw, remove_calls, List.map_cons, run, step]
    simp only [remove_calls] at ih
    cases hr : sbuffer_remove (some s.buffer) s.mem c.2 [] with
    | waiting =>
      simp only [ih s]
      cases run s (List.map (fun r => Call.remove r.1 r.2) rest) <;> rfl
    | undefined => rfl
    | returned st b1 mem1 d =>
      cases b1 with
      | none => rfl
      | some b2 =>
        simp only [ih ⟨b2, mem1⟩]
        cases run ⟨b2, mem1⟩ (List.map (fun r => Call.remove r.1 r.2) rest) <;> rfl

/-- C17, as amended: with M >= 1 consumers suspended in `sbuffer_remove` on an
empty open queue, an insert of one payload record whose node allocation
succeeds signals, and of the consumers that wake
exactly the first to get the mutex returns `SBUFFER_SUCCESS` with that record
while the others go back to wait on a queue that is again empty and open; an
insert of the sentinel broadcasts, all M wake, and every one of them returns
`SBUFFER_NO_DATA`. -/
theorem C17_wake_one_or_all (b : sbuffer) (mem : NodeMem)
    (waiting : List (Nat × sensor_data_t)) (hq : queue_holds b mem [])
    (ho : b.end_of_stream = 0) (hM : waiting ≠ []) :
    (∀ c ∈ waiting, sbuffer_remove (some b) mem c.2 [] = .waiting) ∧
    (woken_by .signal waiting waiting ∧ woken_by .broadcast waiting waiting) ∧
    (∀ d ch a, d.id ≠ 0 → malloc mem ch = some a →
      ∃ b1 mem1, sbuffer_insert (some b) mem d ch =
          .returned .SBUFFER_SUCCESS (some b1) mem1 .signal ∧
        ∀ woken, woken_by .signal waiting woken →
          ∃ w rest s2, woken = w :: rest ∧
            resume b mem ⟨b1, mem1⟩ woken =
              some (s2, Event.remove_ret w.1 .SBUFFER_SUCCESS d
                :: rest.map (fun c => Event.remove_wait c.1)) ∧
            queue_holds s2.buffer s2.mem [] ∧ s2.buffer.end_of_stream = 0) ∧
    (∀ snt ch, snt.id = 0 →
      ∃ b1, sbuffer_insert (some b) mem snt ch =
          .returned .SBUFFER_SUCCESS (some b1) mem .broadcast ∧
        ∀ woken, woken_by .broadcast waiting woken →
          resume b mem ⟨b1, mem⟩ woken =
            some (⟨b1, mem⟩,
              woken.map (fun c => Event.remove_ret c.1 .SBUFFER_NO_DATA c.2)) ∧
          ∀ c ∈ waiting, c ∈ woken) := by
  have hh := ((queue_holds_nil_iff b mem).1 hq).1
  refine ⟨fun c _ => (remove_waiting_iff b mem c.2).2 ⟨hh, ho⟩,
    ⟨⟨hM, fun x hx => hx⟩, List.Perm.refl _⟩, ?_, ?_⟩
  · intro d ch a hid hm
    obtain ⟨b1, mem1, hins, hq1, he1⟩ := insert_payload b mem d ch a [] hq hid hm
    refine ⟨b1, mem1, hins, ?_⟩
    intro woken hw
    obtain ⟨hne, -⟩ := hw
    cases woken with
    | nil => exact absurd rfl hne
    | cons w rest =>
      rw [List.nil_append] at hq1
      obtain ⟨s2, hst, hq2, he2⟩ := step_remove_cons ⟨b1, mem1⟩ w.1 w.2 a d [] hq1
      have hh2 := ((queue_holds_nil_iff s2.buffer s2.mem).1 hq2).1
      have ho2 : s2.buffer.end_of_stream = 0 := by rw [he2]; exact he1.trans ho
      refine ⟨w, rest, s2, rfl, ?_, hq2, ho2⟩
      rw [resume_eq_run b mem hh ho]
      have hrest := run_removes_open s2 hh2 ho2 rest
      simp only [remove_calls, List.map_cons] at hrest ⊢
      rw [run_cons ⟨b1, mem1⟩ _ _ s2 _ hst, hrest]
      rfl
  · intro snt ch hid
    refine ⟨⟨b.head, b.tail, 1⟩, insert_sentinel b mem snt ch hid, ?_⟩
    intro woken hw
    refine ⟨?_, fun c hc => (List.Perm.mem_iff hw).2 hc⟩
    rw [resume_eq_run b mem hh ho]
    exact run_removes_closed ⟨⟨b.head, b.tail, 1⟩, mem⟩ hh one_ne_zero woken

/-- C17, witness: scenario B, two consumers waiting on an empty open queue. -/
theorem C17_wake_one_or_all_witness :
    (∀ c ∈ [(1, sentinel), (2, sentinel)],
      sbuffer_remove (some ⟨none, none, 0⟩) NodeMem.empty c.2 [] = .waiting) ∧
    (∃ b1 mem1, sbuffer_insert (some ⟨none, none, 0⟩) NodeMem.empty rec1 (some 7) =
        .returned .SBUFFER_SUCCESS (some b1) mem1 .signal ∧
      ∀ woken, woken_by .signal [(1, sentinel), (2, sentinel)] woken →
        ∃ w rest s2, woken = w :: rest ∧
          resume ⟨none, none, 0⟩ NodeMem.empty ⟨b1, mem1⟩ woken =
            some (s2, Event.remove_ret w.1 .SBUFFER_SUCCESS rec1
              :: rest.map (fun c => Event.remove_wait c.1)) ∧
          queue_holds s2.buffer s2.mem [] ∧ s2.buffer.end_of_stream = 0) :=
  ⟨(C17_wake_one_or_all ⟨none, none, 0⟩ NodeMem.empty [(1, sentinel), (2, sentinel)]
      (by decide) rfl (by decide)).1,
    (C17_wake_one_or_all ⟨none, none, 0⟩ NodeMem.empty [(1, sentinel), (2, sentinel)]
      (by decide) rfl (by decide)).2.2.1 rec1 (some 7) 7 (by decide) (by decide)⟩

/-! ## `sbuffer_free`, the output record, the shape of the chain -/

theorem free_all_nil (mem : NodeMem) : free_all mem [] = mem := by
  funext x
  simp [free_all]

theorem free_all_cons (mem : NodeMem) (a : Nat) (addrs : List Nat) :
    free_all (free mem a) addrs = free_all mem (a :: addrs) := by
  funext x
  by_cases h1 : x ∈ addrs <;> by_cases h2 : x = a <;> simp [free_all, free, h1, h2]

/-- The node loop of `sbuffer_free` on a chain: with one unit of fuel for each
node it ends, and it has freed exactly the nodes of the chain. -/
theorem free_loop_chain :
    ∀ (cells : List (Nat × sensor_data_t)) (p : Option Nat) (mem : NodeMem) (fuel : Nat),
      is_chain mem p cells → (cells.map Prod.fst).Nodup → cells.length ≤ fuel →
      free_loop fuel p mem = .done (free_all mem (cells.map Prod.fst)) := by
  intro cells
  induction cells with
  | nil =>
    intro p mem fuel h _ _
    rw [is_chain_nil] at h
    subst h
    cases fuel <;> simp [free_loop, free_all_nil]
  | cons c rest ih =>
    intro p mem fuel h hnd hf
    rw [is_chain_cons] at h
    obtain ⟨hp, n, hn, -, hr⟩ := h
    subst hp
    simp only [List.map_cons, List.nodup_cons] at hnd
    cases fuel with
    | zero => simp at hf
    | succ k =>
      have hfree : is_chain (free mem c.1) n.next rest := by
        refine is_chain_congr mem (free mem c.1) rest n.next (fun x hx => ?_) hr
        have : x ≠ c.1 := fun hEQ => hnd.1 (hEQ ▸ hx)
        simp [free, this]
      simp only [free_loop, hn, List.map_cons]
      rw [ih n.next (free mem c.1) k hfree hnd.2 (by simpa using hf), free_all_cons]

/-- C18: `sbuffer_free` on a handle that refers to an initialised queue, with any
number of nodes, returns `SBUFFER_SUCCESS`, frees every node of the queue and
no other, and sets the handle to `NULL`; with a `NULL` argument or a handle that
is `NULL` it returns `SBUFFER_FAILURE` and changes nothing; so a second
`sbuffer_free`, and an insert or a remove through the handle after the free,
return `SBUFFER_FAILURE`. -/
theorem C18_free_releases_and_nulls (b : sbuffer) (mem : NodeMem)
    (cells : List (Nat × sensor_data_t)) (fuel : Nat)
    (hq : queue_holds b mem cells) (hf : cells.length ≤ fuel) :
    (∃ mem1, sbuffer_free fuel (some (some b)) mem =
        .returned .SBUFFER_SUCCESS (some none) mem1 ∧
      (∀ x ∈ cells.map Prod.fst, mem1 x = none) ∧
      (∀ x, x ∉ cells.map Prod.fst → mem1 x = mem x) ∧
      (∀ fuel2, sbuffer_free fuel2 (some none) mem1 =
        .returned .SBUFFER_FAILURE (some none) mem1) ∧
      (∀ data ch, sbuffer_insert none mem1 data ch =
        .returned .SBUFFER_FAILURE none mem1 .nobody) ∧
      (∀ out wakes, sbuffer_remove none mem1 out wakes =
        .returned .SBUFFER_FAILURE none mem1 out)) ∧
    (∀ fuel2 mem2, sbuffer_free fuel2 none mem2 = .returned .SBUFFER_FAILURE none mem2) ∧
    (∀ fuel2 mem2, sbuffer_free fuel2 (some none) mem2 =
      .returned .SBUFFER_FAILURE (some none) mem2) := by
  refine ⟨⟨free_all mem (cells.map Prod.fst), ?_, ?_, ?_, fun _ => rfl, fun _ _ => rfl,
    fun _ _ => rfl⟩, fun _ _ => rfl, fun _ _ => rfl⟩
  · simp only [sbuffer_free, free_loop_chain cells b.head mem fuel hq.1 hq.2.2 hf]
  · intro x hx
    simp [free_all, hx]
  · intro x hx
    simp [free_all, hx]

/-- C18, witness: freeing a queue of two nodes. -/
theorem C18_free_releases_and_nulls_witness :
    ∃ mem1, sbuffer_free 2 (some (some ⟨some 7, some 3, 1⟩)) mem_two =
        .returned .SBUFFER_SUCCESS (some none) mem1 ∧
      (∀ x ∈ [(7, rec1), (3, rec2)].map Prod.fst, mem1 x = none) ∧
      (∀ x, x ∉ [(7, rec1), (3, rec2)].map Prod.fst → mem1 x = mem_two x) ∧
      (∀ fuel2, sbuffer_free fuel2 (some none) mem1 =
        .returned .SBUFFER_FAILURE (some none) mem1) ∧
      (∀ data ch, sbuffer_insert none mem1 data ch =
        .returned .SBUFFER_FAILURE none mem1 .nobody) ∧
      (∀ out wakes, sbuffer_remove none mem1 out wakes =
        .returned .SBUFFER_FAILURE none mem1 out) :=
  (C18_free_releases_and_nulls ⟨some 7, some 3, 1⟩ mem_two [(7, rec1), (3, rec2)] 2
    (by decide) (by decide)).1

/-- C19: `sbuffer_remove` writes the output record only when it returns
`SBUFFER_SUCCESS`: when it returns `SBUFFER_NO_DATA` or `SBUFFER_FAILURE`, the
output record is what it was before the call. -/
theorem C19_output_written_only_on_success (buffer : Option sbuffer) (mem mem1 : NodeMem)
    (out d : sensor_data_t) (wakes : List (sbuffer × NodeMem)) (st : Status)
    (b1 : Option sbuffer)
    (h : sbuffer_remove buffer mem out wakes = .returned st b1 mem1 d)
    (hst : st = .SBUFFER_NO_DATA ∨ st = .SBUFFER_FAILURE) :
    d = out := by
  cases buffer with
  | none =>
    simp only [sbuffer_remove, remove_outcome.returned.injEq] at h
    exact h.2.2.2.symm
  | some b =>
    rcases remove_returned_cases out wakes b mem mem1 st b1 d h with h1 | ⟨-, h2⟩
    · subst h1
      rcases hst with h3 | h3 <;> cases h3
    · exact h2

/-- C19, witness: a remove on an empty closed queue, the output record holding
`rec1` before the call. -/
theorem C19_output_written_only_on_success_witness :
    ∃ st b1 mem1 d, sbuffer_remove (some ⟨none, none, 1⟩) NodeMem.empty rec1 [] =
        .returned st b1 mem1 d ∧ st = .SBUFFER_NO_DATA ∧ d = rec1 :=
  ⟨.SBUFFER_NO_DATA, some ⟨none, none, 1⟩, NodeMem.empty, rec1, rfl, rfl,
    C19_output_written_only_on_success (some ⟨none, none, 1⟩) NodeMem.empty
      NodeMem.empty rec1 rec1 [] .SBUFFER_NO_DATA (some ⟨none, none, 1⟩) rfl
      (Or.inl rfl)⟩

/-- The last node of a chain is live and its next pointer is `NULL`. -/
theorem is_chain_last (mem : NodeMem) (t : Nat) (dt : sensor_data_t) :
    ∀ (front : List (Nat × sensor_data_t)) (p : Option Nat),
      is_chain mem p (front ++ [(t, dt)]) → ∃ n, mem t = some n ∧ n.next = none := by
  intro front
  induction front with
  | nil =>
    intro p h
    rw [List.nil_append, is_chain_cons] at h
    obtain ⟨-, n, hn, -, hr⟩ := h
    exact ⟨n, hn, (is_chain_nil mem n.next).1 hr⟩
  | cons c rest ih =>
    intro p h
    rw [List.cons_append, is_chain_cons] at h
    obtain ⟨-, n, -, -, hr⟩ := h
    exact ih n.next hr

/-- On a queue that holds at least one node, `head == tail` exactly when it
holds one node. -/
theorem head_eq_tail_iff (b : sbuffer) (mem : NodeMem)
    (cells : List (Nat × sensor_data_t)) (hq : queue_holds b mem cells)
    (hne : cells ≠ []) : b.head = b.tail ↔ cells.length = 1 := by
  obtain ⟨hc, ht, hnd⟩ := hq
  cases cells with
  | nil => exact absurd rfl hne
  | cons c rest =>
    have hp := ((is_chain_cons mem b.head c rest).1 hc).1
    cases rest with
    | nil =>
      have htl : b.tail = some c.1 := by simpa using ht
      simp [hp, htl]
    | cons c2 r =>
      simp only [List.map_cons, List.nodup_cons] at hnd
      rw [List.getLast?_cons_cons] at ht
      have hneq : b.head ≠ b.tail := by
        rw [hp, ht]
        intro hEQ
        cases hl : (c2 :: r).getLast? with
        | none => rw [hl] at hEQ; simp at hEQ
        | some x =>
          rw [hl] at hEQ
          simp only [Option.map_some', Option.some.injEq] at hEQ
          have hx := List.mem_of_getLast?_eq_some hl
          apply hnd.1
          rw [hEQ]
          exact List.mem_map.2 ⟨x, hx, rfl⟩
      simp [hneq]

/-- C20: in every queue state reached from a successful `sbuffer_init` by a
finite sequence of insert and remove calls, the next pointers from head run
through finitely many nodes at distinct addresses, the last of them is tail,
the next pointer of tail is `NULL` when the queue holds a node, and then head
equals tail exactly when the queue holds one node. -/
theorem C20_chain_well_formed (ok1 ok2 ok3 : Bool) (b0 : sbuffer) (mem0 : NodeMem)
    (calls : List Call)
    (hs : (sbuffer_init ok1 ok2 ok3).status = .SBUFFER_SUCCESS)
    (hh : (sbuffer_init ok1 ok2 ok3).handle = some b0) :
    ∃ s ev cells, run ⟨b0, mem0⟩ calls = some (s, ev) ∧
      is_chain s.mem s.buffer.head cells ∧
      (cells.map Prod.fst).Nodup ∧
      s.buffer.tail = (cells.getLast?).map Prod.fst ∧
      (cells ≠ [] → ∃ t n, s.buffer.tail = some t ∧ s.mem t = some n ∧ n.next = none) ∧
      (cells ≠ [] → (s.buffer.head = s.buffer.tail ↔ cells.length = 1)) := by
  have hb0 := init_success ok1 ok2 ok3 b0 hs hh
  subst hb0
  obtain ⟨s, ev, cells, hrun, hq, -, -⟩ :=
    run_spec calls ⟨⟨none, none, 0⟩, mem0⟩ [] (fresh_holds mem0)
  refine ⟨s, ev, cells, hrun, hq.1, hq.2.2, hq.2.1, ?_,
    fun hne => head_eq_tail_iff s.buffer s.mem cells hq hne⟩
  intro hne
  rcases List.eq_nil_or_concat cells with hnil | ⟨front, ⟨t, dt⟩, hcells⟩
  · exact absurd hnil hne
  · rw [List.concat_eq_append] at hcells
    subst hcells
    obtain ⟨n, hn, hnx⟩ := is_chain_last s.mem t dt front s.buffer.head hq.1
    refine ⟨t, n, ?_, hn, hnx⟩
    rw [hq.2.1]
    simp

/-- C20, witness: three inserts and a remove leave a chain of two nodes. -/
theorem C20_chain_well_formed_witness :
    ∃ s ev cells, run ⟨⟨none, none, 0⟩, NodeMem.empty⟩
        [Call.insert rec1 (some 7), Call.insert rec2 (some 3), Call.insert rec1 (some 5),
          Call.remove 0 sentinel] = some (s, ev) ∧
      is_chain s.mem s.buffer.head cells ∧
      (cells.map Prod.fst).Nodup ∧
      s.buffer.tail = (cells.getLast?).map Prod.fst ∧
      (cells ≠ [] → ∃ t n, s.buffer.tail = some t ∧ s.mem t = some n ∧ n.next = none) ∧
      (cells ≠ [] → (s.buffer.head = s.buffer.tail ↔ cells.length = 1)) :=
  C20_chain_well_formed true true true ⟨none, none, 0⟩ NodeMem.empty _
    (by decide) (by decide)

/-! ## The payload insert whose allocation fails, with consumers waiting -/

/-- C17, as stated, fails: with one consumer waiting on an empty open queue, an
insert of a payload record whose node allocation fails returns
`SBUFFER_FAILURE` before any signal and queues nothing, so whichever consumers
wake, none of them returns with the record: each goes back to wait. -/
theorem C17_counterexample :
    ¬ (∀ (b : sbuffer) (mem : NodeMem) (waiting : List (Nat × sensor_data_t))
        (d : sensor_data_t) (ch : Option Nat),
        queue_holds b mem [] → b.end_of_stream = 0 → waiting ≠ [] → d.id ≠ 0 →
        ∃ st b1 mem1 wk, sbuffer_insert (some b) mem d ch =
            .returned st (some b1) mem1 wk ∧
          ∃ woken w rest s2, woken = w :: rest ∧
            resume b mem ⟨b1, mem1⟩ woken =
              some (s2, Event.remove_ret w.1 .SBUFFER_SUCCESS d
                :: rest.map (fun c => Event.remove_wait c.1))) := by
  intro h
  obtain ⟨st, b1, mem1, wk, hins, woken, w, rest, s2, hwoken, hres⟩ :=
    h ⟨none, none, 0⟩ NodeMem.empty [(1, sentinel)] rec1 none
      (by decide) rfl (by decide) (by decide)
  rw [insert_alloc_fails ⟨none, none, 0⟩ NodeMem.empty rec1 none (by decide) rfl] at hins
  simp only [insert_outcome.returned.injEq, Option.some.injEq] at hins
  obtain ⟨-, hb1, hmem1, -⟩ := hins
  subst hb1
  subst hmem1
  subst hwoken
  rw [resume_eq_run ⟨none, none, 0⟩ NodeMem.empty rfl rfl,
    run_removes_open ⟨⟨none, none, 0⟩, NodeMem.empty⟩ rfl rfl (w :: rest)] at hres
  simp at hres

end SBuffer
